import Mathlib

/-!
Shallow embedding of the snapshot consensus kernel (Go sources
`kernel/round.go` and the snapshot handler file) and proofs about it.

Modelling conventions:
* Machine integers (`uint64` round numbers and nanosecond timestamps) are
  modelled as `Nat`.  None of the verified properties exercises wraparound
  behaviour of 64-bit arithmetic, so no explicit `% 2^64` reduction is
  inserted.
* `crypto.Hash` values are opaque byte strings; `crypto.NewHash` is an
  opaque collision-free digest, modelled as the identity on the input
  bytes (`Hash.data` is the preimage).  Deterministic-hash statements only
  need `NewHash` to be a function; distinct-hash statements read off the
  distinct preimages.
* `crypto.Signature` values are opaque and modelled as `Nat`; signature
  verification is an uninterpreted boolean function stored in the `Node`
  record, matching the stated contract of the crypto package.
* Go maps are modelled as association lists; map iteration visits the list
  in order.  Go `panic` and the unbounded 1ms busy-wait loop of
  `signSnapshot` are modelled by the `Res` outcome type.
* The store and the peer transport are oracles: each read/write performed
  by one handler call is answered by a field of the `Node`, `Env` or
  `LoadStore` records.  The repeated `time.Now()` reads inside one loop
  are modelled by a single clock value per loop.
-/

/-- Opaque 32-byte digest of the crypto package, modelled by its preimage
bytes. -/
structure Hash where
  data : List Nat
deriving DecidableEq, Repr

/-- Modelled from the spec: `crypto.NewHash` is an opaque deterministic
digest; we keep the whole message as the digest value. -/
def NewHash (b : List Nat) : Hash := ⟨b⟩

/-- The zero value of `crypto.Hash` (32 zero bytes). -/
def zeroHash : Hash := ⟨List.replicate 32 0⟩

/-- Modelled from the spec: `crypto.Hash.ForNetwork` combines a hash with a
network id into a fresh digest. -/
def Hash.forNetwork (h n : Hash) : Hash := ⟨h.data ++ n.data⟩

/-- Big-endian 8-byte encoding of a `uint64`, as produced by
`binary.BigEndian.PutUint64`. -/
def be64 (n : Nat) : List Nat :=
  (List.range 8).map (fun i => n / 2 ^ (8 * (7 - i)) % 256)

/-- Modelled from the spec: `common.Transaction` is opaque to the kernel;
only its deterministic payload serialization is relevant. -/
structure Transaction where
  payloadData : List Nat
deriving DecidableEq, Repr

/-- `Transaction.PayloadHash()`. -/
def Transaction.payloadHash (t : Transaction) : Hash := NewHash t.payloadData

/-- Modelled from the spec: `common.Snapshot` (the type itself is not under
`src/`; fields follow the spec's data model and the kernel's uses).
`payloadBytes` models the deterministic serialization `Payload()` that
excludes `signatures`; `references` is kept as a list so that the length
check of `verifyReferences` stays meaningful. -/
structure Snapshot where
  nodeId : Hash
  roundNumber : Nat
  timestamp : Nat
  references : List Hash
  transaction : Transaction
  signatures : List Nat
  payloadBytes : List Nat
deriving DecidableEq, Repr

/-- `Snapshot.Payload()`. -/
def Snapshot.payload (s : Snapshot) : List Nat := s.payloadBytes

/-- `Snapshot.PayloadHash()`. -/
def Snapshot.payloadHash (s : Snapshot) : Hash := NewHash s.payloadBytes

/-- `kernel.CacheRound`.  The Go field `End` is written `endTs`. -/
structure CacheRound where
  nodeId : Hash
  number : Nat
  start : Nat
  endTs : Nat
  snapshots : List Snapshot
deriving DecidableEq, Repr

/-- `kernel.FinalRound`.  The Go field `End` is written `endTs`. -/
structure FinalRound where
  nodeId : Hash
  number : Nat
  start : Nat
  endTs : Nat
  hash : Hash
deriving DecidableEq, Repr

/-- The timestamp comparison used by `asFinal`'s sort callback. -/
def tsLe (a b : Snapshot) : Prop := a.timestamp ≤ b.timestamp

instance : DecidableRel tsLe := fun a b => Nat.decLe a.timestamp b.timestamp

instance : IsTotal Snapshot tsLe := ⟨fun a b => Nat.le_total a.timestamp b.timestamp⟩

instance : IsTrans Snapshot tsLe := ⟨fun _ _ _ => Nat.le_trans⟩

/-- The snapshot list of a cache round sorted by ascending timestamp, as
`sort.Slice` in `asFinal` arranges it. -/
def CacheRound.sortedSnapshots (c : CacheRound) : List Snapshot :=
  List.insertionSort tsLe c.snapshots

/-- The byte string hashed by `asFinal` and `loadFinalRoundForNode`:
`nodeId ++ BE64(number) ++ H(s.Payload())` for each snapshot in order. -/
def roundPreimage (nodeId : Hash) (number : Nat) (snaps : List Snapshot) : List Nat :=
  nodeId.data ++ be64 number ++ (snaps.map (fun s => (NewHash s.payload).data)).flatten

/-- `CacheRound.asFinal`.  The Go method sorts `c.Snapshots` in place and
returns a fresh `FinalRound`; the model returns both the mutated receiver
and the result. -/
def CacheRound.asFinal (c : CacheRound) : CacheRound × FinalRound :=
  ({ c with snapshots := c.sortedSnapshots },
   ⟨c.nodeId, c.number, c.start, c.endTs,
    NewHash (roundPreimage c.nodeId c.number c.sortedSnapshots)⟩)

/-- Association-list lookup, modelling a Go map read. -/
def alookup {β : Type} (l : List (Hash × β)) (k : Hash) : Option β :=
  (l.find? (fun p => p.1 = k)).map Prod.snd

/-- Association-list update, modelling a Go map write. -/
def aset {β : Type} : List (Hash × β) → Hash → β → List (Hash × β)
  | [], k, v => [(k, v)]
  | (k', v') :: t, k, v =>
    if k' = k then (k, v) :: t else (k', v') :: aset t k v

/-- Outcome of a kernel operation: a value, a Go `panic`, or the
`signSnapshot` busy-wait loop never observing a suitable clock value. -/
inductive Res (α : Type) where
  | ok : α → Res α
  | panicked : Res α
  | stuck : Res α
deriving DecidableEq, Repr

/-- The error values produced by the kernel, one constructor per
`fmt.Errorf`/failure site relevant to the handler. -/
inductive KErr where
  | invalidReferenceCount : Nat → KErr
  | sameReferences : KErr
  | invalidSelfReference : KErr
  | storeReadError : KErr
  | selfLinkRegression : Nat → Nat → KErr
  | finalLinkRegression : Nat → Nat → KErr
  | invalidReferences : KErr
  | writeError : KErr
  | sendError : KErr
deriving DecidableEq, Repr

/-- One entry of `node.ConsensusNodes`: the account hash, its public spend
key and the acceptance flag queried through `IsAccepted()`. -/
structure ConsensusNode where
  accountHash : Hash
  publicSpendKey : Nat
  accepted : Bool
deriving DecidableEq, Repr

/-- `kernel.RoundGraph`. -/
structure RoundGraph where
  nodes : List Hash
  cacheRound : List (Hash × CacheRound)
  finalRound : List (Hash × FinalRound)
  finalCache : List FinalRound
deriving DecidableEq, Repr

/-- `RoundGraph.UpdateFinalCache`: project `{NodeId, Number, Start}` of
every final round into `FinalCache` (the remaining fields are Go zero
values). -/
def RoundGraph.updateFinalCache (g : RoundGraph) : RoundGraph :=
  { g with finalCache :=
      g.finalRound.map (fun p => ⟨p.2.nodeId, p.2.number, p.2.start, 0, zeroHash⟩) }

/-- The kernel `Node` state together with the fixed collaborator
functions it holds: the signature-verification predicate of the crypto
package, the node's own deterministic signer, and the store's round-link
reader. -/
structure Node where
  idForNetwork : Hash
  networkId : Hash
  consensusNodes : List ConsensusNode
  verifySig : Nat → List Nat → Nat → Bool
  mkSig : List Nat → Nat
  readRoundLink : Hash → Hash → Except Unit Nat
  graph : RoundGraph
  snapshotsPool : List (Hash × List Nat)
  consensusCache : List (Hash × Nat)
  topoCounter : Nat
  snapshotRoundGap : Nat

/-- Per-call oracle answers for the store reads/writes, the peer sends and
the clock observed during one `handleSnapshotInput` call. -/
structure Env where
  readSnapshotByTx : Except Unit (Option Snapshot)
  validateTx : Except Unit Unit
  lockInputs : Except Unit Unit
  writeSnapshot : Except Unit Unit
  clock : List Nat
  nowSign : Nat
  nowSend : Nat
  sendSnapshot : Hash → Except Unit Unit

/-- `Node.verifyFinalization`: strictly more signatures than
`len(node.ConsensusNodes) * 2 / 3`. -/
def verifyFinalization (node : Node) (s : Snapshot) : Bool :=
  s.signatures.length > node.consensusNodes.length * 2 / 3

/-- The inner loop of `clearConsensusSignatures`: one copy of `sig` is
appended for every accepted consensus node whose key verifies it. -/
def sigKeepCopies (node : Node) (msg : List Nat) (sig : Nat) : List Nat :=
  (node.consensusNodes.filter
    (fun cn => cn.accepted && node.verifySig cn.publicSpendKey msg sig)).map (fun _ => sig)

/-- The outer loop of `clearConsensusSignatures` with its `filter` map of
already-processed signature values. -/
def clearSigsLoop (node : Node) (msg : List Nat) : List Nat → List Nat → List Nat
  | _, [] => []
  | seen, sig :: rest =>
    if sig ∈ seen then clearSigsLoop node msg seen rest
    else sigKeepCopies node msg sig ++ clearSigsLoop node msg (seen ++ [sig]) rest

/-- `Node.clearConsensusSignatures`. -/
def clearConsensusSignatures (node : Node) (s : Snapshot) : Snapshot :=
  { s with signatures := clearSigsLoop node s.payload [] s.signatures }

/-- Round links proposed by `verifyReferences` (a Go map from node id to
round number). -/
abbrev Links := List (Hash × Nat)

/-- The body of the `verifyReferences` scan once a matching final round
`f` is found: build the proposed links and check round-link monotonicity
against the store. -/
def linkCheck (node : Node) (self f : FinalRound) (sid : Hash) : Links × Bool × Option KErr :=
  let links : Links := aset (aset [] self.nodeId self.number) f.nodeId f.number
  match node.readRoundLink sid self.nodeId with
  | Except.error _ => (links, false, some KErr.storeReadError)
  | Except.ok selfLink =>
    if (alookup links self.nodeId).getD 0 < selfLink then
      (links, true,
       some (KErr.selfLinkRegression selfLink ((alookup links self.nodeId).getD 0)))
    else
      match node.readRoundLink sid f.nodeId with
      | Except.error _ => (links, false, some KErr.storeReadError)
      | Except.ok finalLink =>
        if (alookup links f.nodeId).getD 0 < finalLink then
          (links, true,
           some (KErr.finalLinkRegression finalLink ((alookup links f.nodeId).getD 0)))
        else (links, true, none)

/-- The scan over `node.Graph.FinalRound` inside `verifyReferences`,
skipping the producer's own rounds and hash mismatches. -/
def verifyReferencesLoop (node : Node) (self : FinalRound) (s : Snapshot) (ref1 : Hash) :
    List FinalRound → Links × Bool × Option KErr
  | [] => ([], true, some KErr.invalidReferences)
  | f :: rest =>
    if f.nodeId = s.nodeId ∨ f.hash ≠ ref1 then
      verifyReferencesLoop node self s ref1 rest
    else linkCheck node self f s.nodeId

/-- `Node.verifyReferences`. -/
def verifyReferences (node : Node) (self : FinalRound) (s : Snapshot) :
    Res (Links × Bool × Option KErr) :=
  match s.references with
  | [r0, r1] =>
    if r0 = r1 then Res.ok ([], true, some KErr.sameReferences)
    else if r0 ≠ self.hash then Res.ok ([], true, some KErr.invalidSelfReference)
    else if s.nodeId ≠ self.nodeId then Res.panicked
    else Res.ok (verifyReferencesLoop node self s r1 (node.graph.finalRound.map Prod.snd))
  | refs => Res.ok ([], true, some (KErr.invalidReferenceCount refs.length))

/-- The signature merge of `verifySnapshot`: append the pool signatures not
already present, preserving first-seen order. -/
def mergeSigsLoop (acc : List Nat) : List Nat → List Nat
  | [] => acc
  | sig :: rest =>
    if sig ∈ acc then mergeSigsLoop acc rest else mergeSigsLoop (acc ++ [sig]) rest

/-- The round-advance step of `verifySnapshot`: move the start of an empty
cache, or seal a fully finalized cache into a new final round and open the
next cache at `number + 1` with `start = end = s.timestamp`. -/
def advanceVerify (node : Node) (cache : CacheRound) (final : FinalRound) (s : Snapshot) :
    Res (CacheRound × FinalRound) :=
  if s.timestamp ≥ node.snapshotRoundGap + cache.start then
    if cache.snapshots = [] then Res.ok ({ cache with start := s.timestamp }, final)
    else if cache.snapshots.all (fun ps => verifyFinalization node ps) then
      Res.ok (⟨s.nodeId, cache.number + 1, s.timestamp, s.timestamp, []⟩, (cache.asFinal).2)
    else Res.panicked
  else Res.ok (cache, final)

/-- The result tuple of `verifySnapshot` together with the snapshot and
node state it mutates through pointers in Go. -/
structure VerifyOut where
  links : Links
  snap : Snapshot
  node : Node
  cache : CacheRound
  final : FinalRound
  err : Option KErr

/-- `Node.verifySnapshot`. -/
def verifySnapshot (node : Node) (s : Snapshot) : Res VerifyOut :=
  match alookup node.graph.cacheRound s.nodeId, alookup node.graph.finalRound s.nodeId with
  | some cache, some final =>
    let osigs := (alookup node.snapshotsPool s.payloadHash).getD []
    if osigs.length > 0 ∨ verifyFinalization node s then
      match verifyReferences node final s with
      | Res.panicked => Res.panicked
      | Res.stuck => Res.stuck
      | Res.ok (links, handled, some e) =>
        if handled then Res.ok ⟨links, s, node, cache, final, none⟩
        else Res.ok ⟨links, s, node, cache, final, some e⟩
      | Res.ok (links, _, none) =>
        let merged := mergeSigsLoop s.signatures osigs
        let s' := { s with signatures := merged }
        let node' := { node with snapshotsPool := aset node.snapshotsPool s.payloadHash merged }
        Res.ok ⟨links, s', node', cache, final, none⟩
    else
      match advanceVerify node cache final s with
      | Res.panicked => Res.panicked
      | Res.stuck => Res.stuck
      | Res.ok (cache', final') =>
        if s.roundNumber ≠ cache'.number ∨ s.timestamp < cache'.endTs then
          Res.ok ⟨[], s, node, cache', final', none⟩
        else
          match verifyReferences node final' s with
          | Res.panicked => Res.panicked
          | Res.stuck => Res.stuck
          | Res.ok (links, handled, some e) =>
            if handled then Res.ok ⟨links, s, node, cache', final', none⟩
            else Res.ok ⟨links, s, node, cache', final', some e⟩
          | Res.ok (links, _, none) => Res.ok ⟨links, s, node, cache', final', none⟩
  | _, _ => Res.panicked

/-- The busy-wait loop of `signSnapshot`: read successive clock values
until one strictly exceeds the cache's `End`. -/
def awaitTimestamp (endTs : Nat) : List Nat → Option Nat
  | [] => none
  | t :: rest => if t > endTs then some t else awaitTimestamp endTs rest

/-- The round-advance step of `signSnapshot`; unlike `advanceVerify` the
freshly opened cache leaves `End` at zero (it is overwritten with the new
timestamp immediately afterwards). -/
def advanceSign (node : Node) (cache : CacheRound) (final : FinalRound) (ts : Nat) (sid : Hash) :
    Res (CacheRound × FinalRound) :=
  if ts ≥ node.snapshotRoundGap + cache.start then
    if cache.snapshots = [] then Res.ok ({ cache with start := ts }, final)
    else if cache.snapshots.all (fun ps => verifyFinalization node ps) then
      Res.ok (⟨sid, cache.number + 1, ts, 0, []⟩, (cache.asFinal).2)
    else Res.panicked
  else Res.ok (cache, final)

/-- The scan over `node.Graph.FinalRound` inside `signSnapshot` choosing
the reference round of another validator. -/
def bestLoop (sid : Hash) (now : Nat) (best : FinalRound) : List FinalRound → FinalRound
  | [] => best
  | r :: rest =>
    if r.nodeId ≠ sid ∧ r.start ≥ best.start ∧ r.endTs < now then bestLoop sid now r rest
    else bestLoop sid now best rest

/-- `Node.signSnapshot`. -/
def signSnapshot (node : Node) (env : Env) (s : Snapshot) :
    Res (Snapshot × CacheRound × FinalRound) :=
  match alookup node.graph.cacheRound s.nodeId, alookup node.graph.finalRound s.nodeId with
  | some cache, some final =>
    if s.nodeId ≠ node.idForNetwork ∨ s.signatures ≠ [] ∨ s.timestamp ≠ 0 then
      Res.ok (s, cache, final)
    else
      match awaitTimestamp cache.endTs env.clock with
      | none => Res.stuck
      | some ts =>
        match advanceSign node cache final ts s.nodeId with
        | Res.panicked => Res.panicked
        | Res.stuck => Res.stuck
        | Res.ok (cache1, final1) =>
          let cache2 := { cache1 with endTs := ts }
          let best := bestLoop s.nodeId env.nowSign ⟨final1.nodeId, 0, 0, 0, zeroHash⟩
            (node.graph.finalRound.map Prod.snd)
          if best.nodeId = final1.nodeId then Res.panicked
          else
            let s1 := { s with timestamp := ts }
            let s2 := { s1 with roundNumber := cache2.number }
            Res.ok ({ s2 with references := [final1.hash, best.hash] }, cache2, final1)
  | _, _ => Res.panicked

/-- `Node.sign`: append the node's own signature over the payload, then
re-normalize and publish the signature list to the pool. -/
def nodeSignSnap (node : Node) (s : Snapshot) : Snapshot × Node :=
  let s1 := { s with signatures := s.signatures ++ [node.mkSig s.payload] }
  let s2 := clearConsensusSignatures node s1
  (s2, { node with snapshotsPool := aset node.snapshotsPool s2.payloadHash s2.signatures })

/-- The self-producer rebroadcast loop of `handleSnapshotInput`, threading
the consensus send cache; a failed peer send aborts the loop with the
stamps made so far. -/
def broadcastLoop (env : Env) (node : Node) (s : Snapshot) :
    List (Hash × Nat) → List ConsensusNode → List (Hash × Nat) × Option KErr
  | cc, [] => (cc, none)
  | cc, cn :: rest =>
    if cn.accepted = false then broadcastLoop env node s cc rest
    else
      let peerId := cn.accountHash.forNetwork node.networkId
      let cacheId := s.payloadHash.forNetwork peerId
      if env.nowSend < (alookup cc cacheId).getD 0 + node.snapshotRoundGap then
        broadcastLoop env node s cc rest
      else
        match env.sendSnapshot peerId with
        | Except.error _ => (cc, some KErr.sendError)
        | Except.ok _ => broadcastLoop env node s (aset cc cacheId env.nowSend) rest

/-- Commit the proposed cache and final round for one node id, as the
handler's two map writes do. -/
def commitRounds (g : RoundGraph) (id : Hash) (c : CacheRound) (f : FinalRound) : RoundGraph :=
  { g with cacheRound := aset g.cacheRound id c, finalRound := aset g.finalRound id f }

/-- The deferred `UpdateFinalCache` executed on every handler exit after
registration. -/
def finishFC (node : Node) : Node := { node with graph := node.graph.updateFinalCache }

/-- The tail of `Node.handleSnapshotInput` after the verifier (or local
signer) produced its outcome `out`: propagate verifier errors, persist
and commit if finalized, otherwise lock inputs, co-sign, rebroadcast and
commit. -/
def handlerTail (env : Env) (out : VerifyOut) : Res (Node × Option KErr) :=
  match out.err with
  | some e => Res.ok (finishFC out.node, some e)
  | none =>
    if verifyFinalization out.node out.snap then
      let cacheF := { out.cache with
        snapshots := out.cache.snapshots ++ [out.snap], endTs := out.snap.timestamp }
      let node3 := { out.node with topoCounter := out.node.topoCounter + 1 }
      match env.writeSnapshot with
      | Except.error _ => Res.ok (finishFC node3, some KErr.writeError)
      | Except.ok _ =>
        Res.ok (finishFC
          { node3 with graph := commitRounds node3.graph out.snap.nodeId cacheF out.final },
          none)
    else
      match env.lockInputs with
      | Except.error _ => Res.ok (finishFC out.node, none)
      | Except.ok _ =>
        let sp := nodeSignSnap out.node out.snap
        if sp.2.idForNetwork = sp.1.nodeId then
          match broadcastLoop env sp.2 sp.1 sp.2.consensusCache sp.2.consensusNodes with
          | (cc, some e) =>
            Res.ok (finishFC { sp.2 with consensusCache := cc }, some e)
          | (cc, none) =>
            let node5 := { sp.2 with consensusCache := cc }
            Res.ok (finishFC
              { node5 with
                graph := commitRounds node5.graph sp.1.nodeId out.cache out.final }, none)
        else
          match env.sendSnapshot sp.1.nodeId with
          | Except.error _ => Res.ok (finishFC sp.2, some KErr.sendError)
          | Except.ok _ =>
            Res.ok (finishFC
              { sp.2 with graph := commitRounds sp.2.graph sp.1.nodeId out.cache out.final },
              none)

/-- `Node.handleSnapshotInput`. -/
def handleSnapshotInput (node : Node) (env : Env) (s : Snapshot) : Res (Node × Option KErr) :=
  match env.readSnapshotByTx with
  | Except.error _ => Res.ok (node, none)
  | Except.ok (some _) => Res.ok (node, none)
  | Except.ok none =>
    match env.validateTx with
    | Except.error _ => Res.ok (node, none)
    | Except.ok _ =>
      let s0 := clearConsensusSignatures node s
      match signSnapshot node env s0 with
      | Res.panicked => Res.panicked
      | Res.stuck => Res.stuck
      | Res.ok (s1, cacheP, finalP) =>
        match
          (if s1.nodeId ≠ node.idForNetwork ∨ s1.signatures.length > 1 then
            verifySnapshot node s1
          else Res.ok ⟨[], s1, node, cacheP, finalP, none⟩) with
        | Res.panicked => Res.panicked
        | Res.stuck => Res.stuck
        | Res.ok out => handlerTail env out

/-- The store reads performed by `LoadRoundGraph`. -/
structure LoadStore where
  nodesList : Except Unit (List Hash)
  roundMeta : Hash → Except Unit (Nat × Nat)
  snapshotsForRound : Hash → Nat → Except Unit (List Snapshot)

/-- The `End` computation of `loadHeadRoundForNode`: the maximum snapshot
timestamp, starting from zero. -/
def computeHeadEnd (snaps : List Snapshot) : Nat :=
  snaps.foldl (fun e s => if s.timestamp > e then s.timestamp else e) 0

/-- `kernel.loadHeadRoundForNode`. -/
def loadHeadRoundForNode (store : LoadStore) (id : Hash) : Res (Except Unit CacheRound) :=
  match store.roundMeta id with
  | Except.error _ => Res.ok (Except.error ())
  | Except.ok (num, start) =>
    match store.snapshotsForRound id num with
    | Except.error _ => Res.ok (Except.error ())
    | Except.ok snaps =>
      if snaps.all (fun s => start ≤ s.timestamp) then
        Res.ok (Except.ok ⟨id, num, start, computeHeadEnd snaps, snaps⟩)
      else Res.panicked

/-- `kernel.loadFinalRoundForNode`.  `start` and `end` come from the first
and last stored snapshot; an empty snapshot list panics (index out of
range), as does a timestamp outside `[start, end]`. -/
def loadFinalRoundForNode (store : LoadStore) (id : Hash) (number : Nat) :
    Res (Except Unit FinalRound) :=
  match store.snapshotsForRound id number with
  | Except.error _ => Res.ok (Except.error ())
  | Except.ok [] => Res.panicked
  | Except.ok (s0 :: rest) =>
    let start := s0.timestamp
    let endTs := (List.getLastD rest s0).timestamp
    if (s0 :: rest).all (fun s => start ≤ s.timestamp ∧ s.timestamp ≤ endTs) then
      Res.ok (Except.ok ⟨id, number, start, endTs, NewHash (roundPreimage id number (s0 :: rest))⟩)
    else Res.panicked

/-- The body of `LoadRoundGraph`'s loop for one node id: load the head
cache round, synthesize the round-1 cache when the head number is zero,
and load the corresponding final round. -/
def loadRoundStep (store : LoadStore) (g : RoundGraph) (id : Hash) : Res (Except Unit RoundGraph) :=
  match loadHeadRoundForNode store id with
  | Res.panicked => Res.panicked
  | Res.stuck => Res.stuck
  | Res.ok (Except.error e) => Res.ok (Except.error e)
  | Res.ok (Except.ok cache) =>
    let g0 := { g with nodes := g.nodes ++ [id] }
    let g1 := { g0 with cacheRound := aset g0.cacheRound cache.nodeId cache }
    let finalNumber := if cache.number = 0 then cache.number else cache.number - 1
    let g2 := if cache.number = 0 then
        { g1 with cacheRound := aset g1.cacheRound id ⟨id, 1, 0, 0, []⟩ }
      else g1
    match loadFinalRoundForNode store id finalNumber with
    | Res.panicked => Res.panicked
    | Res.stuck => Res.stuck
    | Res.ok (Except.error e) => Res.ok (Except.error e)
    | Res.ok (Except.ok final) =>
      Res.ok (Except.ok { g2 with finalRound := aset g2.finalRound final.nodeId final })

/-- The loop of `LoadRoundGraph` over the stored node list. -/
def loadRoundFold (store : LoadStore) : RoundGraph → List Hash → Res (Except Unit RoundGraph)
  | g, [] => Res.ok (Except.ok g)
  | g, id :: rest =>
    match loadRoundStep store g id with
    | Res.panicked => Res.panicked
    | Res.stuck => Res.stuck
    | Res.ok (Except.error e) => Res.ok (Except.error e)
    | Res.ok (Except.ok g') => loadRoundFold store g' rest

/-- `kernel.LoadRoundGraph`. -/
def LoadRoundGraph (store : LoadStore) : Res (Except Unit RoundGraph) :=
  match store.nodesList with
  | Except.error _ => Res.ok (Except.error ())
  | Except.ok ids =>
    match loadRoundFold store ⟨[], [], [], []⟩ ids with
    | Res.panicked => Res.panicked
    | Res.stuck => Res.stuck
    | Res.ok (Except.error e) => Res.ok (Except.error e)
    | Res.ok (Except.ok g) => Res.ok (Except.ok g.updateFinalCache)

/-- Following the spec's words: the size of the accepted validator set. -/
def acceptedValidatorCount (node : Node) : Nat :=
  (node.consensusNodes.filter (fun cn => cn.accepted)).length

/-- The final rounds of the graph in map-iteration order. -/
def finalsOf (node : Node) : List FinalRound := node.graph.finalRound.map Prod.snd

/-- The first final round of another node carrying the referenced hash,
exactly as the `verifyReferences` scan encounters it. -/
def firstMatchRef (finals : List FinalRound) (sid : Hash) (ref1 : Hash) : Option FinalRound :=
  finals.find? (fun f => ¬(f.nodeId = sid ∨ f.hash ≠ ref1))

/-- The second reference hash of a snapshot (`references[1]`). -/
def refOne (s : Snapshot) : Hash := s.references.getD 1 zeroHash

/-- The first reference hash of a snapshot (`references[0]`). -/
def refZero (s : Snapshot) : Hash := s.references.getD 0 zeroHash

/-- Whether a `verifyReferences` outcome carries an error. -/
def refsOutErr (r : Res (Links × Bool × Option KErr)) : Bool :=
  match r with
  | Res.ok (_, _, some _) => true
  | _ => false

/-- The `handled` component of a `verifyReferences` outcome. -/
def refsOutHandled (r : Res (Links × Bool × Option KErr)) : Bool :=
  match r with
  | Res.ok (_, true, _) => true
  | _ => false

/-- The links component of a `verifyReferences` outcome. -/
def refsOutLinks (r : Res (Links × Bool × Option KErr)) : Links :=
  match r with
  | Res.ok (l, _, _) => l
  | _ => []

/-- Malformed reference list: not exactly two entries, equal entries, or a
first entry different from the producer's own final-round hash. -/
def refsMalformed (self : FinalRound) (s : Snapshot) : Prop :=
  s.references.length ≠ 2 ∨ refZero s = refOne s ∨ refZero s ≠ self.hash

/-- No final round of another node carries the hash `references[1]`. -/
def noOtherFinalMatches (node : Node) (s : Snapshot) : Prop :=
  firstMatchRef (finalsOf node) s.nodeId (refOne s) = none

/-- A recorded round link in the store exceeds the newly proposed link
value (both store reads succeeding as far as the code consults them). -/
def linkRegression (node : Node) (self : FinalRound) (s : Snapshot) : Prop :=
  match firstMatchRef (finalsOf node) s.nodeId (refOne s) with
  | none => False
  | some f =>
    match node.readRoundLink s.nodeId self.nodeId with
    | Except.error _ => False
    | Except.ok sl =>
      self.number < sl ∨ (sl ≤ self.number ∧
        match node.readRoundLink s.nodeId f.nodeId with
        | Except.error _ => False
        | Except.ok fl => f.number < fl)

/-- A store read of a round link fails at the point the code consults it. -/
def linkReadFailure (node : Node) (self : FinalRound) (s : Snapshot) : Prop :=
  match firstMatchRef (finalsOf node) s.nodeId (refOne s) with
  | none => False
  | some f =>
    match node.readRoundLink s.nodeId self.nodeId with
    | Except.error _ => True
    | Except.ok sl =>
      sl ≤ self.number ∧
        match node.readRoundLink s.nodeId f.nodeId with
        | Except.error _ => True
        | Except.ok _ => False

/-- Eligibility of a final round as the second reference chosen by
`signSnapshot`: it belongs to another validator and ended before `now`. -/
def eligibleRef (sid : Hash) (now : Nat) (r : FinalRound) : Prop :=
  r.nodeId ≠ sid ∧ r.endTs < now

/-- The per-validator round-number invariant of the graph:
`cache.number = final.number + 1`. -/
def invariantGraph (g : RoundGraph) : Prop :=
  ∀ id c f, alookup g.cacheRound id = some c → alookup g.finalRound id = some f →
    c.number = f.number + 1

/-- Projection of a successful `loadFinalRoundForNode` outcome. -/
def loadedFinal (r : Res (Except Unit FinalRound)) : Option FinalRound :=
  match r with
  | Res.ok (Except.ok f) => some f
  | _ => none

/-- A signature-verification oracle accepting everything. -/
def acceptAllVerify : Nat → List Nat → Nat → Bool := fun _ _ _ => true

/-- Validator id used as the local node in the concrete scenarios. -/
def idA : Hash := ⟨[1]⟩

/-- Validator id of the other validator in the concrete scenarios. -/
def idB : Hash := ⟨[2]⟩

/-- Final round of validator A in the concrete graph. -/
def finA : FinalRound := ⟨idA, 0, 0, 0, ⟨[10]⟩⟩

/-- Final round of validator B in the concrete graph. -/
def finB : FinalRound := ⟨idB, 0, 5, 5, ⟨[11]⟩⟩

/-- Open cache round of validator A in the concrete graph. -/
def cacA : CacheRound := ⟨idA, 1, 0, 0, []⟩

/-- Open cache round of validator B in the concrete graph. -/
def cacB : CacheRound := ⟨idB, 1, 5, 5, []⟩

/-- The two-validator concrete round graph. -/
def graphAB : RoundGraph :=
  ⟨[idA, idB], [(idA, cacA), (idB, cacB)], [(idA, finA), (idB, finB)], []⟩

/-- The concrete base node: validator A with both validators accepted and
an all-accepting signature oracle. -/
def baseNode : Node where
  idForNetwork := idA
  networkId := ⟨[0]⟩
  consensusNodes := [⟨idA, 31, true⟩, ⟨idB, 32, true⟩]
  verifySig := acceptAllVerify
  mkSig := fun _ => 100
  readRoundLink := fun _ _ => Except.ok 0
  graph := graphAB
  snapshotsPool := []
  consensusCache := []
  topoCounter := 0
  snapshotRoundGap := 10

/-- A benign per-call environment: no duplicate, valid transaction, all
store and peer operations succeed. -/
def baseEnv : Env where
  readSnapshotByTx := Except.ok none
  validateTx := Except.ok ()
  lockInputs := Except.ok ()
  writeSnapshot := Except.ok ()
  clock := [3]
  nowSign := 100
  nowSend := 100
  sendSnapshot := fun _ => Except.ok ()

/-- A four-validator consensus list with a single accepted member. -/
def nodeFour : Node :=
  { baseNode with consensusNodes :=
      [⟨idA, 31, true⟩, ⟨idB, 32, false⟩, ⟨⟨[3]⟩, 33, false⟩, ⟨⟨[4]⟩, 34, false⟩] }

/-- A snapshot carrying two distinct signatures. -/
def snapTwoSigs : Snapshot := ⟨idB, 1, 6, [], ⟨[9]⟩, [21, 22], [3]⟩

/-- A snapshot carrying one signature, for the duplication run. -/
def snapOneSig : Snapshot := ⟨idB, 1, 6, [], ⟨[9]⟩, [5], [3]⟩

/-- A single-validator consensus list, under which no signature can be
kept more than once per pass. -/
def nodeSolo : Node := { baseNode with consensusNodes := [⟨idA, 31, true⟩] }

/-- A snapshot with a duplicated signature value and a second value. -/
def snapMulti : Snapshot := ⟨idB, 1, 6, [], ⟨[9]⟩, [5, 5, 6], [3]⟩

/-- A snapshot whose two references are equal. -/
def snapSameRefs : Snapshot := ⟨idB, 1, 6, [finB.hash, finB.hash], ⟨[9]⟩, [21], [3]⟩

/-- A non-finalized snapshot whose round number disagrees with the open
cache round of its producer. -/
def snapMisaligned : Snapshot := ⟨idB, 5, 6, [finB.hash, finA.hash], ⟨[9]⟩, [21], [3]⟩

/-- A locally produced fresh snapshot: empty signatures, zero timestamp. -/
def snapFresh : Snapshot := ⟨idA, 0, 0, [], ⟨[9]⟩, [], [2]⟩

/-- The snapshot `signSnapshot` produces from `snapFresh` under
`baseEnv`. -/
def snapFreshSigned : Snapshot := ⟨idA, 1, 3, [finA.hash, finB.hash], ⟨[9]⟩, [], [2]⟩

/-- The cache round `signSnapshot` proposes for `snapFresh` under
`baseEnv`. -/
def cacheASigned : CacheRound := ⟨idA, 1, 0, 3, []⟩

/-- A finalized snapshot of validator B with valid references. -/
def snapFinalB : Snapshot := ⟨idB, 1, 6, [finB.hash, finA.hash], ⟨[9]⟩, [21, 22], [3]⟩

/-- The benign environment with a failing snapshot write. -/
def envWriteFail : Env := { baseEnv with writeSnapshot := Except.error () }

/-- A stored snapshot at timestamp 5 used by the load fixtures. -/
def bootSnap : Snapshot := ⟨idA, 0, 5, [], ⟨[8]⟩, [], [6]⟩

/-- A store whose single validator has head round 1 and a finalized
round 0. -/
def loadStoreA : LoadStore where
  nodesList := Except.ok [idA]
  roundMeta := fun _ => Except.ok (1, 10)
  snapshotsForRound := fun _ n => if n = 0 then Except.ok [bootSnap] else Except.ok []

/-- A store whose single validator still has head round 0 holding one
snapshot. -/
def loadStoreBoot : LoadStore where
  nodesList := Except.ok [idA]
  roundMeta := fun _ => Except.ok (0, 0)
  snapshotsForRound := fun _ _ => Except.ok [bootSnap]

/-- Extract the node of a successful handler outcome. -/
def resultNodeOf (r : Res (Node × Option KErr)) (dflt : Node) : Node :=
  match r with
  | Res.ok (n, _) => n
  | _ => dflt

/-- Extract the graph of a successful load outcome. -/
def resultGraphOf (r : Res (Except Unit RoundGraph)) : RoundGraph :=
  match r with
  | Res.ok (Except.ok g) => g
  | _ => ⟨[], [], [], []⟩

/-- The node state after handling `snapFinalB` with a failing write. -/
def nodeAfterWF : Node :=
  resultNodeOf (handleSnapshotInput baseNode envWriteFail snapFinalB) baseNode

/-- The node state after handling `snapFinalB` with all stores healthy. -/
def nodeAfterOK : Node :=
  resultNodeOf (handleSnapshotInput baseNode baseEnv snapFinalB) baseNode

/-- Validator B's committed cache round after the successful run. -/
def cacheAfterOK : CacheRound :=
  match alookup nodeAfterOK.graph.cacheRound idB with
  | some c => c
  | none => cacA

/-- Validator B's committed final round after the successful run. -/
def finalAfterOK : FinalRound :=
  match alookup nodeAfterOK.graph.finalRound idB with
  | some f => f
  | none => finA

/-- The graph loaded from `loadStoreA`. -/
def gLoadA : RoundGraph := resultGraphOf (LoadRoundGraph loadStoreA)

/-- The graph loaded from `loadStoreBoot`. -/
def gBoot : RoundGraph := resultGraphOf (LoadRoundGraph loadStoreBoot)

/-- The full error/handled/links characterization of `verifyReferences`
asserted by the specification. -/
def c3Property (node : Node) (self : FinalRound) (s : Snapshot) : Prop :=
  (refsOutErr (verifyReferences node self s) = true ∧
     refsOutHandled (verifyReferences node self s) = true ↔
   refsMalformed self s ∨ noOtherFinalMatches node s ∨ linkRegression node self s) ∧
  (refsOutErr (verifyReferences node self s) = true ∧
     refsOutHandled (verifyReferences node self s) = false ↔
   ¬ refsMalformed self s ∧ linkReadFailure node self s) ∧
  (∀ f, refsOutErr (verifyReferences node self s) = false →
     firstMatchRef (finalsOf node) s.nodeId (refOne s) = some f →
     refsOutLinks (verifyReferences node self s) =
       aset (aset [] self.nodeId self.number) f.nodeId f.number) ∧
  (refsOutErr (verifyReferences node self s) = false →
     ¬ refsMalformed self s ∧
     (firstMatchRef (finalsOf node) s.nodeId (refOne s)).isSome = true)

/-- Two snapshots sharing the timestamp 1 but carrying distinct payloads. -/
def snapA : Snapshot := ⟨⟨[7]⟩, 3, 1, [], ⟨[9]⟩, [], [0]⟩

/-- Companion snapshot to `snapA` with the other payload. -/
def snapB : Snapshot := ⟨⟨[7]⟩, 3, 1, [], ⟨[9]⟩, [], [1]⟩

/-- A cache round holding `snapA` before `snapB`. -/
def cacheAB : CacheRound := ⟨⟨[7]⟩, 3, 1, 1, [snapA, snapB]⟩

/-- The same multiset of snapshots inserted in the other order. -/
def cacheBA : CacheRound := ⟨⟨[7]⟩, 3, 1, 1, [snapB, snapA]⟩

/-- A cache round with two snapshots at distinct timestamps. -/
def cacheDistinctA : CacheRound :=
  ⟨⟨[7]⟩, 3, 1, 2, [⟨⟨[7]⟩, 3, 2, [], ⟨[9]⟩, [], [4]⟩, ⟨⟨[7]⟩, 3, 1, [], ⟨[9]⟩, [], [5]⟩]⟩

/-- The snapshots of `cacheDistinctA` in the other insertion order. -/
def cacheDistinctB : CacheRound :=
  ⟨⟨[7]⟩, 3, 1, 2, [⟨⟨[7]⟩, 3, 1, [], ⟨[9]⟩, [], [5]⟩, ⟨⟨[7]⟩, 3, 2, [], ⟨[9]⟩, [], [4]⟩]⟩

/-- A permutation of a timestamp-sorted list with pairwise-distinguishing
timestamps that is itself sorted is the very same list. -/
theorem perm_sorted_tsInj_eq :
    ∀ (l₁ l₂ : List Snapshot), l₁.Perm l₂ →
      List.Sorted tsLe l₁ → List.Sorted tsLe l₂ →
      (∀ a ∈ l₁, ∀ b ∈ l₁, a.timestamp = b.timestamp → a = b) → l₁ = l₂ := by
  intro l₁
  induction l₁ with
  | nil =>
    intro l₂ hp _ _ _
    exact (List.Perm.nil_eq hp).symm ▸ rfl
  | cons a t ih =>
    intro l₂ hp h₁ h₂ hinj
    cases l₂ with
    | nil => exact absurd hp.symm (by simp)
    | cons b u =>
      have hab : a = b := by
        have hamem : a ∈ b :: u := hp.mem_iff.mp (List.mem_cons_self a t)
        have hbmem : b ∈ a :: t := hp.symm.mem_iff.mp (List.mem_cons_self b u)
        have hba : b.timestamp ≤ a.timestamp := by
          rcases List.mem_cons.mp hamem with h | h
          · exact h ▸ Nat.le_refl _
          · exact (List.sorted_cons.mp h₂).1 a h
        have hab' : a.timestamp ≤ b.timestamp := by
          rcases List.mem_cons.mp hbmem with h | h
          · exact h ▸ Nat.le_refl _
          · exact (List.sorted_cons.mp h₁).1 b h
        exact hinj a (List.mem_cons_self a t) b hbmem (Nat.le_antisymm hab' hba)
      subst hab
      have htu : t.Perm u := hp.cons_inv
      have := ih u htu (List.sorted_cons.mp h₁).2 (List.sorted_cons.mp h₂).2
        (fun x hx y hy hxy =>
          hinj x (List.mem_cons_of_mem a hx) y (List.mem_cons_of_mem a hy) hxy)
      rw [this]

/-- Claim C1 (amended): for two cache rounds with the same node id, the
same round number and the same multiset of snapshots, provided no two
distinct snapshots share a timestamp, `asFinal` produces the identical
round hash regardless of the insertion order of the snapshots. -/
theorem c1_round_hash_deterministic (c₁ c₂ : CacheRound)
    (hn : c₁.nodeId = c₂.nodeId) (hr : c₁.number = c₂.number)
    (hp : c₁.snapshots.Perm c₂.snapshots)
    (hinj : ∀ a ∈ c₁.snapshots, ∀ b ∈ c₁.snapshots,
      a.timestamp = b.timestamp → a = b) :
    (c₁.asFinal).2.hash = (c₂.asFinal).2.hash := by
  have hsorted : c₁.sortedSnapshots = c₂.sortedSnapshots := by
    apply perm_sorted_tsInj_eq
    · exact (List.perm_insertionSort tsLe c₁.snapshots).trans
        (hp.trans (List.perm_insertionSort tsLe c₂.snapshots).symm)
    · exact List.sorted_insertionSort tsLe c₁.snapshots
    · exact List.sorted_insertionSort tsLe c₂.snapshots
    · intro a ha b hb hab
      have ha' : a ∈ c₁.snapshots := (List.perm_insertionSort tsLe c₁.snapshots).mem_iff.mp ha
      have hb' : b ∈ c₁.snapshots := (List.perm_insertionSort tsLe c₁.snapshots).mem_iff.mp hb
      exact hinj a ha' b hb' hab
  simp only [CacheRound.asFinal, hsorted, hn, hr]

/-- Claim C1 counterexample: two cache rounds with identical `(node_id,
number)` and the same multiset of snapshots, differing only in insertion
order, for which `asFinal` yields different round hashes, because two
snapshots share a timestamp and the sort leaves them in insertion order. -/
theorem c1_counterexample :
    cacheAB.nodeId = cacheBA.nodeId ∧ cacheAB.number = cacheBA.number ∧
    cacheAB.snapshots.Perm cacheBA.snapshots ∧
    (cacheAB.asFinal).2.hash ≠ (cacheBA.asFinal).2.hash := by decide

/-- Witness for the amended claim C1 at a concrete pair of cache rounds
with pairwise distinct snapshot timestamps. -/
theorem c1_witness :
    cacheDistinctA.snapshots.Perm cacheDistinctB.snapshots ∧
    (cacheDistinctA.asFinal).2.hash = (cacheDistinctB.asFinal).2.hash :=
  ⟨by decide,
   c1_round_hash_deterministic cacheDistinctA cacheDistinctB rfl rfl
     (by decide) (by decide)⟩

/-- Claim C10: `asFinal` permutes the receiver's snapshot list in place
into ascending-timestamp order and leaves the receiver's `NodeId`,
`Number`, `Start` and `End` fields unchanged, copying them verbatim into
the returned `FinalRound`. -/
theorem c10_asFinal_frame (c : CacheRound) :
    (c.asFinal).1.snapshots.Perm c.snapshots ∧
    List.Sorted tsLe (c.asFinal).1.snapshots ∧
    (c.asFinal).1.nodeId = c.nodeId ∧ (c.asFinal).1.number = c.number ∧
    (c.asFinal).1.start = c.start ∧ (c.asFinal).1.endTs = c.endTs ∧
    (c.asFinal).2.nodeId = c.nodeId ∧ (c.asFinal).2.number = c.number ∧
    (c.asFinal).2.start = c.start ∧ (c.asFinal).2.endTs = c.endTs :=
  ⟨List.perm_insertionSort tsLe c.snapshots,
   List.sorted_insertionSort tsLe c.snapshots,
   rfl, rfl, rfl, rfl, rfl, rfl, rfl, rfl⟩

/-- Every element produced by the inner verification loop is the examined
signature itself. -/
theorem sigKeepCopies_mem (node : Node) (msg : List Nat) (g x : Nat)
    (hx : x ∈ sigKeepCopies node msg g) : x = g := by
  simp only [sigKeepCopies, List.mem_map] at hx
  rcases hx with ⟨_, _, h⟩
  exact h.symm

/-- Under the at-most-one-key hypothesis the inner loop keeps a signature
zero times or exactly once. -/
theorem sigKeepCopies_nil_or (node : Node) (msg : List Nat) (g : Nat)
    (h : (sigKeepCopies node msg g).length ≤ 1) :
    sigKeepCopies node msg g = [] ∨ sigKeepCopies node msg g = [g] := by
  cases hc : sigKeepCopies node msg g with
  | nil => exact Or.inl rfl
  | cons a t =>
    cases t with
    | nil =>
      right
      rw [sigKeepCopies_mem node msg g a (by rw [hc]; exact List.mem_cons_self a [])]
    | cons b t2 =>
      rw [hc] at h
      simp at h

/-- The kept-signature list verifies nonempty exactly when some accepted
consensus node's key verifies the signature. -/
theorem sigKeepCopies_ne_nil_iff (node : Node) (msg : List Nat) (g : Nat) :
    sigKeepCopies node msg g ≠ [] ↔
      ∃ cn ∈ node.consensusNodes,
        cn.accepted = true ∧ node.verifySig cn.publicSpendKey msg g = true := by
  simp [sigKeepCopies, List.filter_eq_nil_iff]

/-- Occurrence count of the outer `clearConsensusSignatures` loop under
the at-most-one-key hypothesis. -/
theorem clearSigsLoop_count (node : Node) (msg : List Nat)
    (huniq : ∀ g, (sigKeepCopies node msg g).length ≤ 1) :
    ∀ (sigs seen : List Nat) (x : Nat),
      (clearSigsLoop node msg seen sigs).count x =
        if x ∈ sigs ∧ x ∉ seen ∧ sigKeepCopies node msg x ≠ [] then 1 else 0 := by
  intro sigs
  induction sigs with
  | nil =>
    intro seen x
    simp [clearSigsLoop]
  | cons sig rest ih =>
    intro seen x
    by_cases hseen : sig ∈ seen
    · rw [clearSigsLoop, if_pos hseen, ih seen x]
      by_cases hx : x = sig
      · subst hx
        simp [hseen]
      · simp [List.mem_cons, hx]
    · rw [clearSigsLoop, if_neg hseen, List.count_append, ih (seen ++ [sig]) x]
      rcases sigKeepCopies_nil_or node msg sig (huniq sig) with hz | ho
      · rw [hz]
        by_cases hx : x = sig
        · subst hx
          simp [hseen, hz]
        · simp [List.mem_cons, List.mem_append, hx]
      · rw [ho]
        by_cases hx : x = sig
        · subst hx
          simp [hseen, ho, List.count_singleton]
        · rw [List.count_singleton']
          simp only [List.mem_cons, List.mem_append, List.mem_singleton]
          rw [if_neg (fun h => hx h.symm)]
          simp [hx]

/-- The outer loop only ever emits (copies of) input signatures in input
order, hence a sublist of the input under the hypothesis. -/
theorem clearSigsLoop_sublist (node : Node) (msg : List Nat)
    (huniq : ∀ g, (sigKeepCopies node msg g).length ≤ 1) :
    ∀ (sigs seen : List Nat), (clearSigsLoop node msg seen sigs).Sublist sigs := by
  intro sigs
  induction sigs with
  | nil =>
    intro seen
    simp [clearSigsLoop]
  | cons sig rest ih =>
    intro seen
    by_cases hseen : sig ∈ seen
    · rw [clearSigsLoop, if_pos hseen]
      exact (ih seen).cons sig
    · rw [clearSigsLoop, if_neg hseen]
      rcases sigKeepCopies_nil_or node msg sig (huniq sig) with hz | ho
      · rw [hz, List.nil_append]
        exact (ih _).cons sig
      · rw [ho, List.singleton_append]
        exact (ih _).cons₂ sig

/-- Claim C5 (amended): provided every signature verifies under at most
one accepted validator key, `clearConsensusSignatures` replaces the
signature list with an order-preserving, duplicate-free selection that
keeps exactly the input signatures verifying under some accepted
validator's key, each exactly once. -/
theorem c5_clear_signatures (node : Node) (s : Snapshot)
    (huniq : ∀ g, (sigKeepCopies node s.payload g).length ≤ 1) :
    ((clearConsensusSignatures node s).signatures).Sublist s.signatures ∧
    ((clearConsensusSignatures node s).signatures).Nodup ∧
    ∀ g, ((clearConsensusSignatures node s).signatures).count g =
      if g ∈ s.signatures ∧ (∃ cn ∈ node.consensusNodes,
          cn.accepted = true ∧ node.verifySig cn.publicSpendKey s.payload g = true)
        then 1 else 0 := by
  have hcnt : ∀ g, ((clearConsensusSignatures node s).signatures).count g =
      if g ∈ s.signatures ∧ g ∉ ([] : List Nat) ∧ sigKeepCopies node s.payload g ≠ [] then 1
      else 0 := fun g => clearSigsLoop_count node s.payload huniq s.signatures [] g
  refine ⟨clearSigsLoop_sublist node s.payload huniq s.signatures [], ?_, ?_⟩
  · rw [List.nodup_iff_count_le_one]
    intro a
    rw [hcnt a]
    split
    · exact Nat.le_refl 1
    · exact Nat.zero_le 1
  · intro g
    rw [hcnt g]
    simp [sigKeepCopies_ne_nil_iff]

/-- Claim C5 counterexample: with two accepted validators whose keys both
verify the single signature, `clearConsensusSignatures` emits the
signature twice, so the result is neither deduplicated by value nor does
it contain the kept signature exactly once. -/
theorem c5_counterexample :
    (clearConsensusSignatures baseNode snapOneSig).signatures = [5, 5] ∧
    ¬ ((clearConsensusSignatures baseNode snapOneSig).signatures).Nodup := by decide

/-- Witness for the amended claim C5 on a single-validator node and a
signature list with a duplicate. -/
theorem c5_witness :
    ((clearConsensusSignatures nodeSolo snapMulti).signatures).Sublist snapMulti.signatures ∧
    ((clearConsensusSignatures nodeSolo snapMulti).signatures).Nodup ∧
    ((clearConsensusSignatures nodeSolo snapMulti).signatures).count 5 = 1 := by
  have H := c5_clear_signatures nodeSolo snapMulti (fun g => Nat.le_of_eq rfl)
  exact ⟨H.1, H.2.1, by rw [H.2.2 5]; decide⟩

/-- Claim C6 (amended): `verifyFinalization` returns true exactly when the
signature count strictly exceeds two thirds of the entire consensus node
list, accepted or not: `len(signatures) > len(consensusNodes)*2/3` in
integer arithmetic, equivalently `3*len(signatures) >
2*len(consensusNodes)`. -/
theorem c6_finalization_threshold (node : Node) (s : Snapshot) :
    verifyFinalization node s = true ↔
      3 * s.signatures.length > 2 * node.consensusNodes.length := by
  simp only [verifyFinalization, decide_eq_true_eq, gt_iff_lt]
  rw [Nat.div_lt_iff_lt_mul (by norm_num : 0 < 3)]
  omega

/-- Claim C6 counterexample: with four consensus nodes of which one is
accepted, a snapshot with two signatures fails `verifyFinalization` even
though two signatures strictly exceed two thirds of the accepted
validator set. -/
theorem c6_counterexample :
    verifyFinalization nodeFour snapTwoSigs = false ∧
    snapTwoSigs.signatures.length > 2 * acceptedValidatorCount nodeFour / 3 := by decide

/-- The `verifyReferences` scan is determined by the first matching final
round. -/
theorem verifyReferencesLoop_eq (node : Node) (self : FinalRound) (s : Snapshot) (r1 : Hash) :
    ∀ finals, verifyReferencesLoop node self s r1 finals =
      match firstMatchRef finals s.nodeId r1 with
      | none => ([], true, some KErr.invalidReferences)
      | some f => linkCheck node self f s.nodeId := by
  intro finals
  induction finals with
  | nil => rfl
  | cons f rest ih =>
    by_cases h : f.nodeId = s.nodeId ∨ f.hash ≠ r1
    · rw [verifyReferencesLoop, if_pos h, ih]
      have hf : firstMatchRef (f :: rest) s.nodeId r1 = firstMatchRef rest s.nodeId r1 := by
        simp [firstMatchRef, List.find?, h]
      rw [hf]
    · rw [verifyReferencesLoop, if_neg h]
      have hf : firstMatchRef (f :: rest) s.nodeId r1 = some f := by
        simp [firstMatchRef, List.find?, h]
      rw [hf]

/-- Lookup of the first key in the two-entry link map. -/
theorem alookup_links_self (a b : Hash) (m n : Nat) (h : b ≠ a) :
    alookup (aset (aset [] a m) b n) a = some m := by
  have hab : ¬ a = b := fun hh => h hh.symm
  simp [aset, alookup, List.find?, hab]

/-- Lookup of the second key in the two-entry link map. -/
theorem alookup_links_other (a b : Hash) (m n : Nat) (h : b ≠ a) :
    alookup (aset (aset [] a m) b n) b = some n := by
  have hab : ¬ a = b := fun hh => h hh.symm
  simp [aset, alookup, List.find?, hab]

/-- Closed-form description of `verifyReferences` when the graph is
self-consistent for the snapshot's producer. -/
theorem verifyReferences_eq (node : Node) (self : FinalRound) (s : Snapshot)
    (hsid : s.nodeId = self.nodeId) :
    verifyReferences node self s =
      match s.references with
      | [r0, r1] =>
        if r0 = r1 then Res.ok ([], true, some KErr.sameReferences)
        else if r0 ≠ self.hash then Res.ok ([], true, some KErr.invalidSelfReference)
        else Res.ok (match firstMatchRef (finalsOf node) s.nodeId r1 with
          | none => ([], true, some KErr.invalidReferences)
          | some f => linkCheck node self f s.nodeId)
      | refs => Res.ok ([], true, some (KErr.invalidReferenceCount refs.length)) := by
  cases href : s.references with
  | nil => simp [verifyReferences, href]
  | cons r0 tl =>
    cases tl with
    | nil => simp [verifyReferences, href]
    | cons r1 tl2 =>
      cases tl2 with
      | cons r2 tl3 => simp [verifyReferences, href]
      | nil =>
        by_cases heq : r0 = r1
        · simp [verifyReferences, href, heq]
        · by_cases hh : r0 = self.hash
          · simp [verifyReferences, href, heq, hh, hsid, verifyReferencesLoop_eq, finalsOf]
          · simp [verifyReferences, href, heq, hh]

/-- `verifyReferences` outcome when the reference count is wrong. -/
theorem verifyReferences_badcount (node : Node) (self : FinalRound) (s : Snapshot)
    (h2 : s.references.length ≠ 2) :
    verifyReferences node self s =
      Res.ok ([], true, some (KErr.invalidReferenceCount s.references.length)) := by
  cases href : s.references with
  | nil => simp [verifyReferences, href]
  | cons r0 tl =>
    cases tl with
    | nil => simp [verifyReferences, href]
    | cons r1 tl2 =>
      cases tl2 with
      | nil =>
        rw [href] at h2
        simp at h2
      | cons r2 tl3 => simp [verifyReferences, href]

/-- `verifyReferences` outcome when both references coincide. -/
theorem verifyReferences_same (node : Node) (self : FinalRound) (s : Snapshot)
    (r0 r1 : Hash) (href : s.references = [r0, r1]) (heq : r0 = r1) :
    verifyReferences node self s = Res.ok ([], true, some KErr.sameReferences) := by
  simp [verifyReferences, href, heq]

/-- `verifyReferences` outcome when the first reference is not the
producer's final-round hash. -/
theorem verifyReferences_selfmismatch (node : Node) (self : FinalRound) (s : Snapshot)
    (r0 r1 : Hash) (href : s.references = [r0, r1]) (hne : r0 ≠ r1) (hh : r0 ≠ self.hash) :
    verifyReferences node self s = Res.ok ([], true, some KErr.invalidSelfReference) := by
  simp [verifyReferences, href, hne, hh]

/-- `verifyReferences` outcome when no other node's final round carries
the second reference. -/
theorem verifyReferences_nomatch (node : Node) (self : FinalRound) (s : Snapshot)
    (r0 r1 : Hash) (hsid : s.nodeId = self.nodeId) (href : s.references = [r0, r1])
    (hne : r0 ≠ r1) (hh : r0 = self.hash)
    (hm : firstMatchRef (finalsOf node) s.nodeId r1 = none) :
    verifyReferences node self s = Res.ok ([], true, some KErr.invalidReferences) := by
  have hne2 : ¬ self.hash = r1 := by
    rw [← hh]
    exact hne
  simp [verifyReferences, href, hne, hh, hne2, hsid, verifyReferencesLoop_eq, finalsOf]
    at hm ⊢
  rw [hm]

/-- `verifyReferences` outcome once a matching final round is found. -/
theorem verifyReferences_match (node : Node) (self : FinalRound) (s : Snapshot)
    (r0 r1 : Hash) (f : FinalRound) (hsid : s.nodeId = self.nodeId)
    (href : s.references = [r0, r1]) (hne : r0 ≠ r1) (hh : r0 = self.hash)
    (hm : firstMatchRef (finalsOf node) s.nodeId r1 = some f) :
    verifyReferences node self s = Res.ok (linkCheck node self f s.nodeId) := by
  have hne2 : ¬ self.hash = r1 := by
    rw [← hh]
    exact hne
  simp [verifyReferences, href, hne, hh, hne2, hsid, verifyReferencesLoop_eq, finalsOf]
    at hm ⊢
  rw [hm]

/-- `linkCheck` outcome when the first round-link read fails. -/
theorem linkCheck_readfail1 (node : Node) (self f : FinalRound) (sid : Hash)
    (hre : node.readRoundLink sid self.nodeId = Except.error ()) :
    linkCheck node self f sid =
      (aset (aset [] self.nodeId self.number) f.nodeId f.number, false,
       some KErr.storeReadError) := by
  simp [linkCheck, hre]

/-- `linkCheck` outcome on a self-link regression. -/
theorem linkCheck_selfRegression (node : Node) (self f : FinalRound) (sid : Hash) (sl : Nat)
    (hnes : f.nodeId ≠ self.nodeId)
    (hre : node.readRoundLink sid self.nodeId = Except.ok sl) (hlt : self.number < sl) :
    linkCheck node self f sid =
      (aset (aset [] self.nodeId self.number) f.nodeId f.number, true,
       some (KErr.selfLinkRegression sl self.number)) := by
  simp [linkCheck, hre, alookup_links_self self.nodeId f.nodeId self.number f.number hnes, hlt]

/-- `linkCheck` outcome when the second round-link read fails. -/
theorem linkCheck_readfail2 (node : Node) (self f : FinalRound) (sid : Hash) (sl : Nat)
    (hnes : f.nodeId ≠ self.nodeId)
    (hre : node.readRoundLink sid self.nodeId = Except.ok sl) (hlt : ¬ self.number < sl)
    (hre2 : node.readRoundLink sid f.nodeId = Except.error ()) :
    linkCheck node self f sid =
      (aset (aset [] self.nodeId self.number) f.nodeId f.number, false,
       some KErr.storeReadError) := by
  simp [linkCheck, hre, hre2,
    alookup_links_self self.nodeId f.nodeId self.number f.number hnes, hlt]

/-- `linkCheck` outcome on a final-link regression. -/
theorem linkCheck_finalRegression (node : Node) (self f : FinalRound) (sid : Hash)
    (sl fl : Nat) (hnes : f.nodeId ≠ self.nodeId)
    (hre : node.readRoundLink sid self.nodeId = Except.ok sl) (hlt : ¬ self.number < sl)
    (hre2 : node.readRoundLink sid f.nodeId = Except.ok fl) (hflt : f.number < fl) :
    linkCheck node self f sid =
      (aset (aset [] self.nodeId self.number) f.nodeId f.number, true,
       some (KErr.finalLinkRegression fl f.number)) := by
  simp [linkCheck, hre, hre2, hlt, hflt,
    alookup_links_self self.nodeId f.nodeId self.number f.number hnes,
    alookup_links_other self.nodeId f.nodeId self.number f.number hnes]

/-- `linkCheck` outcome on success. -/
theorem linkCheck_success (node : Node) (self f : FinalRound) (sid : Hash) (sl fl : Nat)
    (hnes : f.nodeId ≠ self.nodeId)
    (hre : node.readRoundLink sid self.nodeId = Except.ok sl) (hlt : ¬ self.number < sl)
    (hre2 : node.readRoundLink sid f.nodeId = Except.ok fl) (hflt : ¬ f.number < fl) :
    linkCheck node self f sid =
      (aset (aset [] self.nodeId self.number) f.nodeId f.number, true, none) := by
  simp [linkCheck, hre, hre2, hlt, hflt,
    alookup_links_self self.nodeId f.nodeId self.number f.number hnes,
    alookup_links_other self.nodeId f.nodeId self.number f.number hnes]

/-- A handled-error outcome settles the characterization. -/
theorem c3_of_handled (node : Node) (self : FinalRound) (s : Snapshot) (l : Links) (e : KErr)
    (hv : verifyReferences node self s = Res.ok (l, true, some e))
    (hmal : refsMalformed self s ∨ noOtherFinalMatches node s ∨ linkRegression node self s)
    (hnofail : ¬ (¬ refsMalformed self s ∧ linkReadFailure node self s)) :
    c3Property node self s := by
  refine ⟨⟨fun _ => hmal, fun _ => by rw [hv]; exact ⟨rfl, rfl⟩⟩,
    ⟨?_, fun h => absurd h hnofail⟩, ?_, ?_⟩
  · intro h
    rw [hv] at h
    simp [refsOutHandled] at h
  · intro f herr hm
    rw [hv] at herr
    simp [refsOutErr] at herr
  · intro herr
    rw [hv] at herr
    simp [refsOutErr] at herr

/-- An unhandled-error outcome settles the characterization. -/
theorem c3_of_unhandled (node : Node) (self : FinalRound) (s : Snapshot) (l : Links) (e : KErr)
    (hv : verifyReferences node self s = Res.ok (l, false, some e))
    (hnm : ¬ refsMalformed self s) (hfail : linkReadFailure node self s)
    (hnodisj :
      ¬ (refsMalformed self s ∨ noOtherFinalMatches node s ∨ linkRegression node self s)) :
    c3Property node self s := by
  refine ⟨⟨?_, fun h => absurd h hnodisj⟩,
    ⟨fun _ => ⟨hnm, hfail⟩, fun _ => by rw [hv]; exact ⟨rfl, rfl⟩⟩, ?_, ?_⟩
  · intro h
    rw [hv] at h
    simp [refsOutHandled] at h
  · intro f herr hm
    rw [hv] at herr
    simp [refsOutErr] at herr
  · intro herr
    rw [hv] at herr
    simp [refsOutErr] at herr

/-- A successful outcome settles the characterization. -/
theorem c3_of_success (node : Node) (self : FinalRound) (s : Snapshot) (f : FinalRound)
    (hv : verifyReferences node self s =
      Res.ok (aset (aset [] self.nodeId self.number) f.nodeId f.number, true, none))
    (hnm : ¬ refsMalformed self s)
    (hm : firstMatchRef (finalsOf node) s.nodeId (refOne s) = some f)
    (hnodisj :
      ¬ (refsMalformed self s ∨ noOtherFinalMatches node s ∨ linkRegression node self s))
    (hnofail : ¬ (¬ refsMalformed self s ∧ linkReadFailure node self s)) :
    c3Property node self s := by
  refine ⟨⟨?_, fun h => absurd h hnodisj⟩, ⟨?_, fun h => absurd h hnofail⟩, ?_, ?_⟩
  · intro h
    rw [hv] at h
    simp [refsOutErr] at h
  · intro h
    rw [hv] at h
    simp [refsOutErr] at h
  · intro f' herr hm'
    rw [hm] at hm'
    cases hm'
    rw [hv]
    rfl
  · intro _
    refine ⟨hnm, ?_⟩
    rw [hm]
    rfl

/-- A wrong reference count settles the characterization. -/
theorem c3_of_badlen (node : Node) (self : FinalRound) (s : Snapshot)
    (h2 : s.references.length ≠ 2) : c3Property node self s :=
  c3_of_handled node self s _ _ (verifyReferences_badcount node self s h2)
    (Or.inl (Or.inl h2)) (fun h => h.1 (Or.inl h2))

/-- Claim C3: `verify_references(self, s)` returns an error with
`handled = true` exactly when the reference list is malformed (wrong
count, equal entries, or a first entry differing from the producer's
final-round hash), or no final round of another node carries
`references[1]`, or a recorded round link from the store exceeds the
newly proposed link value; it returns `handled = false` exactly when a
consulted round-link read fails; on success the returned links map the
producer to its final-round number and the matched node to its
final-round number. -/
theorem c3_verify_references (node : Node) (self : FinalRound) (s : Snapshot)
    (hsid : s.nodeId = self.nodeId) :
    (refsOutErr (verifyReferences node self s) = true ∧
       refsOutHandled (verifyReferences node self s) = true ↔
     refsMalformed self s ∨ noOtherFinalMatches node s ∨ linkRegression node self s) ∧
    (refsOutErr (verifyReferences node self s) = true ∧
       refsOutHandled (verifyReferences node self s) = false ↔
     ¬ refsMalformed self s ∧ linkReadFailure node self s) ∧
    (∀ f, refsOutErr (verifyReferences node self s) = false →
       firstMatchRef (finalsOf node) s.nodeId (refOne s) = some f →
       refsOutLinks (verifyReferences node self s) =
         aset (aset [] self.nodeId self.number) f.nodeId f.number) ∧
    (refsOutErr (verifyReferences node self s) = false →
       ¬ refsMalformed self s ∧
       (firstMatchRef (finalsOf node) s.nodeId (refOne s)).isSome = true) := by
  show c3Property node self s
  cases href : s.references with
  | nil =>
    exact c3_of_badlen node self s (by rw [href]; decide)
  | cons r0 tl =>
    cases tl with
    | nil =>
      exact c3_of_badlen node self s (by rw [href]; simp)
    | cons r1 tl2 =>
      cases tl2 with
      | cons r2 tl3 =>
        exact c3_of_badlen node self s (by rw [href]; simp)
      | nil =>
        have hr0 : refZero s = r0 := by simp [refZero, href]
        have hr1 : refOne s = r1 := by simp [refOne, href]
        by_cases heq : r0 = r1
        · refine c3_of_handled node self s _ _
            (verifyReferences_same node self s r0 r1 href heq)
            (Or.inl (Or.inr (Or.inl (by rw [hr0, hr1]; exact heq)))) ?_
          intro h
          exact h.1 (Or.inr (Or.inl (by rw [hr0, hr1]; exact heq)))
        · by_cases hh : r0 = self.hash
          · have hnm : ¬ refsMalformed self s := by
              simp only [refsMalformed]
              rw [hr0, hr1]
              push_neg
              exact ⟨by simp [href], heq, hh⟩
            cases hmatch : firstMatchRef (finalsOf node) s.nodeId r1 with
            | none =>
              have hm' : firstMatchRef (finalsOf node) s.nodeId (refOne s) = none := by
                rw [hr1]
                exact hmatch
              refine c3_of_handled node self s _ _
                (verifyReferences_nomatch node self s r0 r1 hsid href heq hh hmatch)
                (Or.inr (Or.inl hm')) ?_
              intro h
              have hfail := h.2
              simp only [linkReadFailure, hm'] at hfail
            | some f =>
              have hm' : firstMatchRef (finalsOf node) s.nodeId (refOne s) = some f := by
                rw [hr1]
                exact hmatch
              have hpred := List.find?_some hmatch
              have hnotor : ¬ (f.nodeId = s.nodeId ∨ f.hash ≠ r1) := by simpa using hpred
              have hnes : f.nodeId ≠ self.nodeId := by
                rw [← hsid]
                exact fun hc => hnotor (Or.inl hc)
              have hveq := verifyReferences_match node self s r0 r1 f hsid href heq hh hmatch
              cases hre1 : node.readRoundLink s.nodeId self.nodeId with
              | error u =>
                cases u
                have hv := hveq.trans
                  (congrArg Res.ok (linkCheck_readfail1 node self f s.nodeId hre1))
                refine c3_of_unhandled node self s _ _ hv hnm ?_ ?_
                · simp only [linkReadFailure, hm', hre1]
                · rintro (h | h | h)
                  · exact hnm h
                  · exact Option.noConfusion (hm'.symm.trans h)
                  · simp only [linkRegression, hm', hre1] at h
              | ok sl =>
                by_cases hlt : self.number < sl
                · have hv := hveq.trans (congrArg Res.ok
                    (linkCheck_selfRegression node self f s.nodeId sl hnes hre1 hlt))
                  refine c3_of_handled node self s _ _ hv (Or.inr (Or.inr ?_)) ?_
                  · simp only [linkRegression, hm', hre1]
                    exact Or.inl hlt
                  · intro h
                    have hfail := h.2
                    simp only [linkReadFailure, hm', hre1] at hfail
                    exact absurd hfail.1 (by omega)
                · cases hre2 : node.readRoundLink s.nodeId f.nodeId with
                  | error u =>
                    cases u
                    have hv := hveq.trans (congrArg Res.ok
                      (linkCheck_readfail2 node self f s.nodeId sl hnes hre1 hlt hre2))
                    refine c3_of_unhandled node self s _ _ hv hnm ?_ ?_
                    · simp only [linkReadFailure, hm', hre1, hre2]
                      exact ⟨Nat.le_of_not_lt hlt, trivial⟩
                    · rintro (h | h | h)
                      · exact hnm h
                      · exact Option.noConfusion (hm'.symm.trans h)
                      · simp only [linkRegression, hm', hre1, hre2] at h
                        rcases h with h | h
                        · exact hlt h
                        · exact h.2
                  | ok fl =>
                    by_cases hflt : f.number < fl
                    · have hv := hveq.trans (congrArg Res.ok
                        (linkCheck_finalRegression node self f s.nodeId sl fl hnes hre1 hlt
                          hre2 hflt))
                      refine c3_of_handled node self s _ _ hv (Or.inr (Or.inr ?_)) ?_
                      · simp only [linkRegression, hm', hre1, hre2]
                        exact Or.inr ⟨Nat.le_of_not_lt hlt, hflt⟩
                      · intro h
                        have hfail := h.2
                        simp only [linkReadFailure, hm', hre1, hre2] at hfail
                        exact hfail.2
                    · have hv := hveq.trans (congrArg Res.ok
                        (linkCheck_success node self f s.nodeId sl fl hnes hre1 hlt hre2 hflt))
                      refine c3_of_success node self s f hv hnm hm' ?_ ?_
                      · rintro (h | h | h)
                        · exact hnm h
                        · exact Option.noConfusion (hm'.symm.trans h)
                        · simp only [linkRegression, hm', hre1, hre2] at h
                          rcases h with h | h
                          · exact hlt h
                          · exact hflt h.2
                      · intro h
                        have hfail := h.2
                        simp only [linkReadFailure, hm', hre1, hre2] at hfail
                        exact hfail.2
          · refine c3_of_handled node self s _ _
              (verifyReferences_selfmismatch node self s r0 r1 href heq hh)
              (Or.inl (Or.inr (Or.inr (by rw [hr0]; exact hh)))) ?_
            intro h
            exact h.1 (Or.inr (Or.inr (by rw [hr0]; exact hh)))

/-- Witness for claim C3 at a concrete snapshot whose two references are
equal: the outcome is an error with `handled = true`. -/
theorem c3_witness :
    refsOutErr (verifyReferences baseNode finB snapSameRefs) = true ∧
    refsOutHandled (verifyReferences baseNode finB snapSameRefs) = true :=
  (c3_verify_references baseNode finB snapSameRefs rfl).1.mpr
    (Or.inl (Or.inr (Or.inl (by decide))))

/-- Claim C4: in the verifier's round-advance path, a snapshot that fails
the alignment check after the advance step is rejected silently:
`verifySnapshot` returns no error and empty links, leaves the snapshot
and the node (graph and signature pool) untouched, and merely proposes
the advanced rounds. -/
theorem c4_silent_reject (node : Node) (s : Snapshot) (cache : CacheRound)
    (final : FinalRound) (c' : CacheRound) (f' : FinalRound)
    (hc : alookup node.graph.cacheRound s.nodeId = some cache)
    (hf : alookup node.graph.finalRound s.nodeId = some final)
    (hpool : (alookup node.snapshotsPool s.payloadHash).getD [] = [])
    (hnf : verifyFinalization node s = false)
    (hadv : advanceVerify node cache final s = Res.ok (c', f'))
    (hrej : s.roundNumber ≠ c'.number ∨ s.timestamp < c'.endTs) :
    verifySnapshot node s = Res.ok ⟨[], s, node, c', f', none⟩ := by
  have hcond : ¬ (((alookup node.snapshotsPool s.payloadHash).getD []).length > 0 ∨
      verifyFinalization node s = true) := by
    rw [hpool]
    simp [hnf]
  simp only [verifySnapshot, hc, hf]
  rw [if_neg hcond]
  simp only [hadv]
  rw [if_pos hrej]

/-- Witness for claim C4 at a concrete misaligned snapshot. -/
theorem c4_witness :
    verifySnapshot baseNode snapMisaligned =
      Res.ok ⟨[], snapMisaligned, baseNode, cacB, finB, none⟩ :=
  c4_silent_reject baseNode snapMisaligned cacB finB cacB finB rfl rfl rfl rfl rfl
    (by decide)

/-- The busy-wait loop only yields values strictly above the round end. -/
theorem awaitTimestamp_gt (endTs : Nat) :
    ∀ (clock : List Nat) (ts : Nat), awaitTimestamp endTs clock = some ts → ts > endTs := by
  intro clock
  induction clock with
  | nil =>
    intro ts h
    exact absurd h (by simp [awaitTimestamp])
  | cons t rest ih =>
    intro ts h
    rw [awaitTimestamp] at h
    by_cases hgt : t > endTs
    · rw [if_pos hgt] at h
      cases h
      exact hgt
    · rw [if_neg hgt] at h
      exact ih ts h

/-- `advanceSign` never reports the busy-wait outcome. -/
theorem advanceSign_not_stuck (node : Node) (cache : CacheRound) (final : FinalRound)
    (ts : Nat) (sid : Hash) : advanceSign node cache final ts sid ≠ Res.stuck := by
  unfold advanceSign
  split
  · split
    · simp
    · split
      · simp
      · simp
  · simp

/-- The running best of `bestLoop` never loses start height. -/
theorem bestLoop_start_ge (sid : Hash) (now : Nat) :
    ∀ (rs : List FinalRound) (best : FinalRound),
      best.start ≤ (bestLoop sid now best rs).start := by
  intro rs
  induction rs with
  | nil =>
    intro best
    exact Nat.le_refl _
  | cons r rest ih =>
    intro best
    rw [bestLoop]
    by_cases hc : r.nodeId ≠ sid ∧ r.start ≥ best.start ∧ r.endTs < now
    · rw [if_pos hc]
      exact Nat.le_trans hc.2.1 (ih r)
    · rw [if_neg hc]
      exact ih best

/-- `bestLoop` either keeps its seed or returns an eligible member of the
scanned list. -/
theorem bestLoop_mem_or_eq (sid : Hash) (now : Nat) :
    ∀ (rs : List FinalRound) (best : FinalRound),
      bestLoop sid now best rs = best ∨
      (bestLoop sid now best rs ∈ rs ∧ eligibleRef sid now (bestLoop sid now best rs)) := by
  intro rs
  induction rs with
  | nil =>
    intro best
    exact Or.inl rfl
  | cons r rest ih =>
    intro best
    rw [bestLoop]
    by_cases hc : r.nodeId ≠ sid ∧ r.start ≥ best.start ∧ r.endTs < now
    · rw [if_pos hc]
      rcases ih r with h | ⟨hm, he⟩
      · right
        rw [h]
        exact ⟨List.mem_cons_self r rest, ⟨hc.1, hc.2.2⟩⟩
      · right
        exact ⟨List.mem_cons_of_mem r hm, he⟩
    · rw [if_neg hc]
      rcases ih best with h | ⟨hm, he⟩
      · exact Or.inl h
      · exact Or.inr ⟨List.mem_cons_of_mem r hm, he⟩

/-- Every eligible final round in the scanned list has start at most the
start of the returned best. -/
theorem bestLoop_max (sid : Hash) (now : Nat) :
    ∀ (rs : List FinalRound) (best r : FinalRound), r ∈ rs → eligibleRef sid now r →
      r.start ≤ (bestLoop sid now best rs).start := by
  intro rs
  induction rs with
  | nil =>
    intro best r hr
    exact absurd hr (by simp)
  | cons a rest ih =>
    intro best r hr he
    rcases List.mem_cons.mp hr with rfl | hr'
    · by_cases hc : r.nodeId ≠ sid ∧ r.start ≥ best.start ∧ r.endTs < now
      · rw [bestLoop, if_pos hc]
        exact bestLoop_start_ge sid now rest r
      · rw [bestLoop, if_neg hc]
        have hlt : ¬ r.start ≥ best.start := fun hge => hc ⟨he.1, hge, he.2⟩
        exact Nat.le_trans (Nat.le_of_lt (Nat.lt_of_not_le hlt))
          (bestLoop_start_ge sid now rest best)
    · rw [bestLoop]
      by_cases hc : a.nodeId ≠ sid ∧ a.start ≥ best.start ∧ a.endTs < now
      · rw [if_pos hc]
        exact ih a r hr' he
      · rw [if_neg hc]
        exact ih best r hr' he

/-- With no eligible round in the list, `bestLoop` keeps its seed. -/
theorem bestLoop_no_elig (sid : Hash) (now : Nat) :
    ∀ (rs : List FinalRound) (best : FinalRound),
      (∀ r ∈ rs, ¬ eligibleRef sid now r) → bestLoop sid now best rs = best := by
  intro rs
  induction rs with
  | nil =>
    intro best _
    rfl
  | cons a rest ih =>
    intro best h
    rw [bestLoop, if_neg (fun hc => h a (List.mem_cons_self a rest) ⟨hc.1, hc.2.2⟩)]
    exact ih best (fun r hr => h r (List.mem_cons_of_mem a hr))

/-- Claim C7: `signSnapshot` acts only on a local fresh snapshot (own node
id, empty signatures, zero timestamp) and otherwise returns the current
cache and final unchanged; when it acts and returns, the snapshot carries
a timestamp strictly above the original cache end, the (possibly
advanced) cache number as round number, the proposed final round's hash
as `references[0]`, and as `references[1]` the hash of another
validator's final round of maximal start among those ending before now;
with no such validator it panics. -/
theorem c7_sign_snapshot (node : Node) (env : Env) (s : Snapshot)
    (cache : CacheRound) (final : FinalRound)
    (hc : alookup node.graph.cacheRound s.nodeId = some cache)
    (hf : alookup node.graph.finalRound s.nodeId = some final) :
    (¬ (s.nodeId = node.idForNetwork ∧ s.signatures = [] ∧ s.timestamp = 0) →
      signSnapshot node env s = Res.ok (s, cache, final)) ∧
    (∀ s' c' f', (s.nodeId = node.idForNetwork ∧ s.signatures = [] ∧ s.timestamp = 0) →
      signSnapshot node env s = Res.ok (s', c', f') →
      s'.timestamp > cache.endTs ∧ s'.roundNumber = c'.number ∧
      refZero s' = f'.hash ∧
      ∃ r ∈ finalsOf node, eligibleRef s.nodeId env.nowSign r ∧ refOne s' = r.hash ∧
        ∀ r2 ∈ finalsOf node, eligibleRef s.nodeId env.nowSign r2 → r2.start ≤ r.start) ∧
    ((s.nodeId = node.idForNetwork ∧ s.signatures = [] ∧ s.timestamp = 0) →
      (∃ ts, awaitTimestamp cache.endTs env.clock = some ts) →
      (∀ r ∈ finalsOf node, ¬ eligibleRef s.nodeId env.nowSign r) →
      signSnapshot node env s = Res.panicked) := by
  refine ⟨?_, ?_, ?_⟩
  · intro hnact
    have hcond : s.nodeId ≠ node.idForNetwork ∨ s.signatures ≠ [] ∨ s.timestamp ≠ 0 := by
      by_cases h1 : s.nodeId = node.idForNetwork
      · by_cases h2 : s.signatures = []
        · by_cases h3 : s.timestamp = 0
          · exact absurd ⟨h1, h2, h3⟩ hnact
          · exact Or.inr (Or.inr h3)
        · exact Or.inr (Or.inl h2)
      · exact Or.inl h1
    simp only [signSnapshot, hc, hf]
    rw [if_pos hcond]
  · intro s' c' f' hact hrun
    have hcond : ¬ (s.nodeId ≠ node.idForNetwork ∨ s.signatures ≠ [] ∨ s.timestamp ≠ 0) := by
      rintro (h | h | h)
      · exact h hact.1
      · exact h hact.2.1
      · exact h hact.2.2
    cases hawait : awaitTimestamp cache.endTs env.clock with
    | none =>
      simp only [signSnapshot, hc, hf, hawait] at hrun
      rw [if_neg hcond] at hrun
      exact Res.noConfusion hrun
    | some ts =>
      simp only [signSnapshot, hc, hf, hawait] at hrun
      rw [if_neg hcond] at hrun
      cases hadv : advanceSign node cache final ts s.nodeId with
      | panicked =>
        rw [hadv] at hrun
        exact Res.noConfusion hrun
      | stuck =>
        exact absurd hadv (advanceSign_not_stuck node cache final ts s.nodeId)
      | ok cf =>
        obtain ⟨c1, f1⟩ := cf
        simp only [hadv] at hrun
        by_cases hbest : (bestLoop s.nodeId env.nowSign ⟨f1.nodeId, 0, 0, 0, zeroHash⟩
            (node.graph.finalRound.map Prod.snd)).nodeId = f1.nodeId
        · rw [if_pos hbest] at hrun
          exact Res.noConfusion hrun
        · rw [if_neg hbest] at hrun
          have hinj := hrun
          rw [Res.ok.injEq, Prod.mk.injEq, Prod.mk.injEq] at hinj
          obtain ⟨hs', hc', hf'⟩ := hinj
          subst hs'
          subst hc'
          subst hf'
          refine ⟨awaitTimestamp_gt cache.endTs env.clock ts hawait, rfl, rfl, ?_⟩
          rcases bestLoop_mem_or_eq s.nodeId env.nowSign
              (node.graph.finalRound.map Prod.snd) ⟨f1.nodeId, 0, 0, 0, zeroHash⟩
            with hb | ⟨hm, he⟩
          · exact absurd (by rw [hb]) hbest
          · refine ⟨bestLoop s.nodeId env.nowSign ⟨f1.nodeId, 0, 0, 0, zeroHash⟩
                (node.graph.finalRound.map Prod.snd), ?_, he, rfl, ?_⟩
            · simpa [finalsOf] using hm
            · intro r2 hr2 he2
              exact bestLoop_max s.nodeId env.nowSign
                (node.graph.finalRound.map Prod.snd) ⟨f1.nodeId, 0, 0, 0, zeroHash⟩ r2
                (by simpa [finalsOf] using hr2) he2
  · intro hact hawaitEx hnoelig
    have hcond : ¬ (s.nodeId ≠ node.idForNetwork ∨ s.signatures ≠ [] ∨ s.timestamp ≠ 0) := by
      rintro (h | h | h)
      · exact h hact.1
      · exact h hact.2.1
      · exact h hact.2.2
    obtain ⟨ts, hawait⟩ := hawaitEx
    simp only [signSnapshot, hc, hf, hawait]
    rw [if_neg hcond]
    cases hadv : advanceSign node cache final ts s.nodeId with
    | panicked =>
      rfl
    | stuck =>
      exact absurd hadv (advanceSign_not_stuck node cache final ts s.nodeId)
    | ok cf =>
      obtain ⟨c1, f1⟩ := cf
      simp only [hadv]
      have hb := bestLoop_no_elig s.nodeId env.nowSign
        (node.graph.finalRound.map Prod.snd) ⟨f1.nodeId, 0, 0, 0, zeroHash⟩
        (fun r hr => hnoelig r (by simpa [finalsOf] using hr))
      rw [hb]
      simp

/-- Witness for claim C7: the concrete fresh snapshot is signed with
timestamp 3, round number 1 and references to validator A's own final
round and validator B's final round. -/
theorem c7_witness :
    signSnapshot baseNode baseEnv snapFresh =
      Res.ok (snapFreshSigned, cacheASigned, finA) ∧
    snapFreshSigned.timestamp > cacA.endTs ∧
    snapFreshSigned.roundNumber = cacheASigned.number ∧
    refZero snapFreshSigned = finA.hash := by
  have H := (c7_sign_snapshot baseNode baseEnv snapFresh cacA finA rfl rfl).2.1
    snapFreshSigned cacheASigned finA ⟨rfl, rfl, rfl⟩ rfl
  exact ⟨rfl, H.1, H.2.1, H.2.2.1⟩

/-- Errors produced by `linkCheck` are never the handler's write or send
errors. -/
theorem linkCheck_err_kind (node : Node) (self f : FinalRound) (sid : Hash) :
    ∀ l hd e, linkCheck node self f sid = (l, hd, some e) →
      e ≠ KErr.writeError ∧ e ≠ KErr.sendError := by
  intro l hd e hlc
  unfold linkCheck at hlc
  cases hre1 : node.readRoundLink sid self.nodeId with
  | error u =>
    simp only [hre1] at hlc
    simp only [Prod.mk.injEq, Option.some.injEq] at hlc
    obtain ⟨h1, h2, h3⟩ := hlc
    subst h3
    exact ⟨by simp, by simp⟩
  | ok sl =>
    simp only [hre1] at hlc
    by_cases hlt :
        (alookup (aset (aset [] self.nodeId self.number) f.nodeId f.number) self.nodeId).getD 0
          < sl
    · rw [if_pos hlt] at hlc
      simp only [Prod.mk.injEq, Option.some.injEq] at hlc
      obtain ⟨h1, h2, h3⟩ := hlc
      subst h3
      exact ⟨by simp, by simp⟩
    · rw [if_neg hlt] at hlc
      cases hre2 : node.readRoundLink sid f.nodeId with
      | error u =>
        simp only [hre2] at hlc
        simp only [Prod.mk.injEq, Option.some.injEq] at hlc
        obtain ⟨h1, h2, h3⟩ := hlc
        subst h3
        exact ⟨by simp, by simp⟩
      | ok fl =>
        simp only [hre2] at hlc
        by_cases hflt :
            (alookup (aset (aset [] self.nodeId self.number) f.nodeId f.number) f.nodeId).getD 0
              < fl
        · rw [if_pos hflt] at hlc
          simp only [Prod.mk.injEq, Option.some.injEq] at hlc
          obtain ⟨h1, h2, h3⟩ := hlc
          subst h3
          exact ⟨by simp, by simp⟩
        · rw [if_neg hflt] at hlc
          simp only [Prod.mk.injEq] at hlc
          exact Option.noConfusion hlc.2.2

/-- Errors produced by the reference scan are never the handler's write
or send errors. -/
theorem verifyReferencesLoop_err_kind (node : Node) (self : FinalRound) (s : Snapshot)
    (r1 : Hash) :
    ∀ finals l hd e, verifyReferencesLoop node self s r1 finals = (l, hd, some e) →
      e ≠ KErr.writeError ∧ e ≠ KErr.sendError := by
  intro finals
  induction finals with
  | nil =>
    intro l hd e hv
    rw [verifyReferencesLoop] at hv
    simp only [Prod.mk.injEq, Option.some.injEq] at hv
    rw [← hv.2.2]
    exact ⟨by simp, by simp⟩
  | cons f rest ih =>
    intro l hd e hv
    rw [verifyReferencesLoop] at hv
    split at hv
    · exact ih l hd e hv
    · exact linkCheck_err_kind node self f s.nodeId l hd e hv

/-- Errors produced by `verifyReferences` are never the handler's write
or send errors. -/
theorem verifyReferences_err_kind (node : Node) (self : FinalRound) (s : Snapshot) :
    ∀ l hd e, verifyReferences node self s = Res.ok (l, hd, some e) →
      e ≠ KErr.writeError ∧ e ≠ KErr.sendError := by
  intro l hd e hv
  cases href : s.references with
  | nil =>
    simp only [verifyReferences, href] at hv
    simp only [Res.ok.injEq, Prod.mk.injEq, Option.some.injEq] at hv
    rw [← hv.2.2]
    exact ⟨by simp, by simp⟩
  | cons r0 tl =>
    cases tl with
    | nil =>
      simp only [verifyReferences, href] at hv
      simp only [Res.ok.injEq, Prod.mk.injEq, Option.some.injEq] at hv
      rw [← hv.2.2]
      exact ⟨by simp, by simp⟩
    | cons r1 tl2 =>
      cases tl2 with
      | cons r2 tl3 =>
        simp only [verifyReferences, href] at hv
        simp only [Res.ok.injEq, Prod.mk.injEq, Option.some.injEq] at hv
        rw [← hv.2.2]
        exact ⟨by simp, by simp⟩
      | nil =>
        by_cases heq : r0 = r1
        · simp only [verifyReferences, href] at hv
          rw [if_pos heq] at hv
          simp only [Res.ok.injEq, Prod.mk.injEq, Option.some.injEq] at hv
          rw [← hv.2.2]
          exact ⟨by simp, by simp⟩
        · by_cases hh : r0 = self.hash
          · simp only [verifyReferences, href] at hv
            rw [if_neg heq, if_neg (not_not_intro hh)] at hv
            by_cases hpan : s.nodeId = self.nodeId
            · rw [if_neg (not_not_intro hpan)] at hv
              simp only [Res.ok.injEq] at hv
              exact verifyReferencesLoop_err_kind node self s r1 _ l hd e hv
            · rw [if_pos hpan] at hv
              exact Res.noConfusion hv
          · simp only [verifyReferences, href] at hv
            rw [if_neg heq, if_pos (by simpa using hh)] at hv
            simp only [Res.ok.injEq, Prod.mk.injEq, Option.some.injEq] at hv
            rw [← hv.2.2]
            exact ⟨by simp, by simp⟩

/-- The round-advance step of the verifier preserves the
cache-equals-final-plus-one pairing. -/
theorem advanceVerify_pair (node : Node) (cache : CacheRound) (final : FinalRound)
    (s : Snapshot) (c' : CacheRound) (f' : FinalRound)
    (h : advanceVerify node cache final s = Res.ok (c', f'))
    (hp : cache.number = final.number + 1) : c'.number = f'.number + 1 := by
  unfold advanceVerify at h
  split at h
  · split at h
    · cases h
      exact hp
    · split at h
      · cases h
        rfl
      · exact Res.noConfusion h
  · cases h
    exact hp

/-- The round-advance step of the signer preserves the
cache-equals-final-plus-one pairing. -/
theorem advanceSign_pair (node : Node) (cache : CacheRound) (final : FinalRound)
    (ts : Nat) (sid : Hash) (c' : CacheRound) (f' : FinalRound)
    (h : advanceSign node cache final ts sid = Res.ok (c', f'))
    (hp : cache.number = final.number + 1) : c'.number = f'.number + 1 := by
  unfold advanceSign at h
  split at h
  · split at h
    · cases h
      exact hp
    · split at h
      · cases h
        rfl
      · exact Res.noConfusion h
  · cases h
    exact hp

/-- `advanceVerify` never reports the busy-wait outcome. -/
theorem advanceVerify_not_stuck (node : Node) (cache : CacheRound) (final : FinalRound)
    (s : Snapshot) : advanceVerify node cache final s ≠ Res.stuck := by
  unfold advanceVerify
  split
  · split
    · simp
    · split
      · simp
      · simp
  · simp

/-- Shape of a successful `signSnapshot` call: the snapshot keeps its node
id and the proposed rounds keep the cache-final pairing. -/
theorem signSnapshot_ok_props (node : Node) (env : Env) (s : Snapshot)
    (s' : Snapshot) (c : CacheRound) (f : FinalRound)
    (h : signSnapshot node env s = Res.ok (s', c, f)) :
    s'.nodeId = s.nodeId ∧
    ∃ c0 f0, alookup node.graph.cacheRound s.nodeId = some c0 ∧
      alookup node.graph.finalRound s.nodeId = some f0 ∧
      (c0.number = f0.number + 1 → c.number = f.number + 1) := by
  cases hc : alookup node.graph.cacheRound s.nodeId with
  | none =>
    simp only [signSnapshot, hc] at h
    exact Res.noConfusion h
  | some cache =>
    cases hf : alookup node.graph.finalRound s.nodeId with
    | none =>
      simp only [signSnapshot, hc, hf] at h
      exact Res.noConfusion h
    | some final =>
      simp only [signSnapshot, hc, hf] at h
      by_cases hcond : s.nodeId ≠ node.idForNetwork ∨ s.signatures ≠ [] ∨ s.timestamp ≠ 0
      · rw [if_pos hcond] at h
        simp only [Res.ok.injEq, Prod.mk.injEq] at h
        obtain ⟨h1, h2, h3⟩ := h
        subst h1
        subst h2
        subst h3
        exact ⟨rfl, cache, final, rfl, rfl, fun hp => hp⟩
      · rw [if_neg hcond] at h
        cases hawait : awaitTimestamp cache.endTs env.clock with
        | none =>
          simp only [hawait] at h
          exact Res.noConfusion h
        | some ts =>
          simp only [hawait] at h
          cases hadv : advanceSign node cache final ts s.nodeId with
          | panicked =>
            simp only [hadv] at h
            exact Res.noConfusion h
          | stuck =>
            exact absurd hadv (advanceSign_not_stuck node cache final ts s.nodeId)
          | ok cf =>
            obtain ⟨c1, f1⟩ := cf
            simp only [hadv] at h
            by_cases hbest : (bestLoop s.nodeId env.nowSign ⟨f1.nodeId, 0, 0, 0, zeroHash⟩
                (node.graph.finalRound.map Prod.snd)).nodeId = f1.nodeId
            · rw [if_pos hbest] at h
              exact Res.noConfusion h
            · rw [if_neg hbest] at h
              simp only [Res.ok.injEq, Prod.mk.injEq] at h
              obtain ⟨h1, h2, h3⟩ := h
              subst h1
              subst h2
              subst h3
              exact ⟨rfl, cache, final, rfl, rfl,
                fun hp => advanceSign_pair node cache final ts s.nodeId c1 f1 hadv hp⟩

/-- Shape of a successful `verifySnapshot` call: the graph is untouched
(only the pool may change), the snapshot keeps its node id, errors are
verifier errors, and the proposed rounds keep the cache-final pairing. -/
theorem verifySnapshot_ok_props (node : Node) (s : Snapshot) (out : VerifyOut)
    (h : verifySnapshot node s = Res.ok out) :
    out.node.graph = node.graph ∧ out.snap.nodeId = s.nodeId ∧
    (∀ e, out.err = some e → e ≠ KErr.writeError ∧ e ≠ KErr.sendError) ∧
    ∃ c0 f0, alookup node.graph.cacheRound s.nodeId = some c0 ∧
      alookup node.graph.finalRound s.nodeId = some f0 ∧
      (c0.number = f0.number + 1 → out.cache.number = out.final.number + 1) := by
  cases hc : alookup node.graph.cacheRound s.nodeId with
  | none =>
    simp only [verifySnapshot, hc] at h
    exact Res.noConfusion h
  | some cache =>
    cases hf : alookup node.graph.finalRound s.nodeId with
    | none =>
      simp only [verifySnapshot, hc, hf] at h
      exact Res.noConfusion h
    | some final =>
      simp only [verifySnapshot, hc, hf] at h
      by_cases hcnd : ((alookup node.snapshotsPool s.payloadHash).getD []).length > 0 ∨
          verifyFinalization node s = true
      · rw [if_pos hcnd] at h
        cases hvr : verifyReferences node final s with
        | panicked =>
          simp only [hvr] at h
          exact Res.noConfusion h
        | stuck =>
          simp only [hvr] at h
          exact Res.noConfusion h
        | ok lhe =>
          obtain ⟨links, handled, errOpt⟩ := lhe
          cases errOpt with
          | some e =>
            cases handled with
            | true =>
              simp only [hvr] at h
              rw [if_pos trivial] at h
              simp only [Res.ok.injEq] at h
              subst h
              exact ⟨rfl, rfl, fun e' he' => Option.noConfusion he',
                cache, final, rfl, rfl, fun hp => hp⟩
            | false =>
              simp only [hvr] at h
              rw [if_neg (by simp)] at h
              simp only [Res.ok.injEq] at h
              subst h
              refine ⟨rfl, rfl, ?_, cache, final, rfl, rfl, fun hp => hp⟩
              intro e' he'
              cases he'
              exact verifyReferences_err_kind node final s links false e hvr
          | none =>
            simp only [hvr] at h
            simp only [Res.ok.injEq] at h
            subst h
            exact ⟨rfl, rfl, fun e' he' => Option.noConfusion he',
              cache, final, rfl, rfl, fun hp => hp⟩
      · rw [if_neg hcnd] at h
        cases hadv : advanceVerify node cache final s with
        | panicked =>
          simp only [hadv] at h
          exact Res.noConfusion h
        | stuck =>
          exact absurd hadv (advanceVerify_not_stuck node cache final s)
        | ok cf =>
          obtain ⟨c1, f1⟩ := cf
          simp only [hadv] at h
          by_cases hrej : s.roundNumber ≠ c1.number ∨ s.timestamp < c1.endTs
          · rw [if_pos hrej] at h
            simp only [Res.ok.injEq] at h
            subst h
            exact ⟨rfl, rfl, fun e' he' => Option.noConfusion he', cache, final, rfl, rfl,
              fun hp => advanceVerify_pair node cache final s c1 f1 hadv hp⟩
          · rw [if_neg hrej] at h
            cases hvr : verifyReferences node f1 s with
            | panicked =>
              simp only [hvr] at h
              exact Res.noConfusion h
            | stuck =>
              simp only [hvr] at h
              exact Res.noConfusion h
            | ok lhe =>
              obtain ⟨links, handled, errOpt⟩ := lhe
              cases errOpt with
              | some e =>
                cases handled with
                | true =>
                  simp only [hvr] at h
                  rw [if_pos trivial] at h
                  simp only [Res.ok.injEq] at h
                  subst h
                  exact ⟨rfl, rfl, fun e' he' => Option.noConfusion he', cache, final, rfl,
                    rfl, fun hp => advanceVerify_pair node cache final s c1 f1 hadv hp⟩
                | false =>
                  simp only [hvr] at h
                  rw [if_neg (by simp)] at h
                  simp only [Res.ok.injEq] at h
                  subst h
                  refine ⟨rfl, rfl, ?_, cache, final, rfl, rfl,
                    fun hp => advanceVerify_pair node cache final s c1 f1 hadv hp⟩
                  intro e' he'
                  cases he'
                  exact verifyReferences_err_kind node f1 s links false e hvr
              | none =>
                simp only [hvr] at h
                simp only [Res.ok.injEq] at h
                subst h
                exact ⟨rfl, rfl, fun e' he' => Option.noConfusion he', cache, final, rfl,
                  rfl, fun hp => advanceVerify_pair node cache final s c1 f1 hadv hp⟩

/-- The rebroadcast loop can only fail with a send error. -/
theorem broadcastLoop_err (env : Env) (node : Node) (s : Snapshot) :
    ∀ (cns : List ConsensusNode) (cc cc' : List (Hash × Nat)) (e : KErr),
      broadcastLoop env node s cc cns = (cc', some e) → e = KErr.sendError := by
  intro cns
  induction cns with
  | nil =>
    intro cc cc' e hb
    rw [broadcastLoop] at hb
    simp at hb
  | cons cn rest ih =>
    intro cc cc' e hb
    rw [broadcastLoop] at hb
    by_cases hacc : cn.accepted = false
    · rw [if_pos hacc] at hb
      exact ih cc cc' e hb
    · rw [if_neg hacc] at hb
      by_cases hgate : env.nowSend <
          (alookup cc (s.payloadHash.forNetwork (cn.accountHash.forNetwork node.networkId))).getD 0
            + node.snapshotRoundGap
      · rw [if_pos hgate] at hb
        exact ih cc cc' e hb
      · rw [if_neg hgate] at hb
        cases hsend : env.sendSnapshot (cn.accountHash.forNetwork node.networkId) with
        | error u =>
          simp only [hsend] at hb
          simp only [Prod.mk.injEq, Option.some.injEq] at hb
          exact hb.2.symm
        | ok u =>
          simp only [hsend] at hb
          exact ih _ cc' e hb

/-- Case analysis of the handler tail: either the graph's round maps are
untouched, or the run succeeded and committed a proposed pair for the
snapshot's producer; a propagated write error means the store write
failed (or the verifier already carried it). -/
theorem handlerTail_cases (env : Env) (out : VerifyOut) (node' : Node) (e : Option KErr)
    (h : handlerTail env out = Res.ok (node', e)) :
    ((node'.graph.cacheRound = out.node.graph.cacheRound ∧
      node'.graph.finalRound = out.node.graph.finalRound) ∨
     (e = none ∧ ∃ c, c.number = out.cache.number ∧
        node'.graph.cacheRound = aset out.node.graph.cacheRound out.snap.nodeId c ∧
        node'.graph.finalRound = aset out.node.graph.finalRound out.snap.nodeId out.final)) ∧
    (e = some KErr.writeError →
      out.err = some KErr.writeError ∨ env.writeSnapshot = Except.error ()) := by
  unfold handlerTail at h
  cases herr : out.err with
  | some e0 =>
    simp only [herr] at h
    simp only [Res.ok.injEq, Prod.mk.injEq] at h
    obtain ⟨h1, h2⟩ := h
    subst h1
    subst h2
    refine ⟨Or.inl ⟨rfl, rfl⟩, fun hw => ?_⟩
    left
    exact hw
  | none =>
    simp only [herr] at h
    by_cases hfin : verifyFinalization out.node out.snap = true
    · rw [if_pos hfin] at h
      cases hwr : env.writeSnapshot with
      | error u =>
        simp only [hwr] at h
        simp only [Res.ok.injEq, Prod.mk.injEq] at h
        obtain ⟨h1, h2⟩ := h
        subst h1
        subst h2
        exact ⟨Or.inl ⟨rfl, rfl⟩, fun _ => Or.inr rfl⟩
      | ok u =>
        simp only [hwr] at h
        simp only [Res.ok.injEq, Prod.mk.injEq] at h
        obtain ⟨h1, h2⟩ := h
        subst h1
        subst h2
        exact ⟨Or.inr ⟨rfl, ⟨{ out.cache with snapshots := out.cache.snapshots ++ [out.snap], endTs := out.snap.timestamp }, rfl, rfl, rfl⟩⟩, fun hw => Option.noConfusion hw⟩
    · rw [if_neg hfin] at h
      cases hlk : env.lockInputs with
      | error u =>
        simp only [hlk] at h
        simp only [Res.ok.injEq, Prod.mk.injEq] at h
        obtain ⟨h1, h2⟩ := h
        subst h1
        subst h2
        exact ⟨Or.inl ⟨rfl, rfl⟩, fun hw => Option.noConfusion hw⟩
      | ok u =>
        simp only [hlk] at h
        by_cases hbr : (nodeSignSnap out.node out.snap).2.idForNetwork =
            (nodeSignSnap out.node out.snap).1.nodeId
        · rw [if_pos hbr] at h
          cases hbl : broadcastLoop env (nodeSignSnap out.node out.snap).2
              (nodeSignSnap out.node out.snap).1
              (nodeSignSnap out.node out.snap).2.consensusCache
              (nodeSignSnap out.node out.snap).2.consensusNodes with
          | mk cc oe =>
            cases oe with
            | some e1 =>
              simp only [hbl] at h
              simp only [Res.ok.injEq, Prod.mk.injEq] at h
              obtain ⟨h1, h2⟩ := h
              subst h1
              subst h2
              refine ⟨Or.inl ⟨rfl, rfl⟩, fun hw => ?_⟩
              have he1 := broadcastLoop_err env (nodeSignSnap out.node out.snap).2
                (nodeSignSnap out.node out.snap).1 (nodeSignSnap out.node out.snap).2.consensusNodes
                (nodeSignSnap out.node out.snap).2.consensusCache cc e1 hbl
              injection hw with hw'
              rw [he1] at hw'
              exact absurd hw' (by simp)
            | none =>
              simp only [hbl] at h
              simp only [Res.ok.injEq, Prod.mk.injEq] at h
              obtain ⟨h1, h2⟩ := h
              subst h1
              subst h2
              exact ⟨Or.inr ⟨rfl, out.cache, rfl, rfl, rfl⟩, fun hw => Option.noConfusion hw⟩
        · rw [if_neg hbr] at h
          cases hsend : env.sendSnapshot (nodeSignSnap out.node out.snap).1.nodeId with
          | error u =>
            simp only [hsend] at h
            simp only [Res.ok.injEq, Prod.mk.injEq] at h
            obtain ⟨h1, h2⟩ := h
            subst h1
            subst h2
            refine ⟨Or.inl ⟨rfl, rfl⟩, fun hw => ?_⟩
            injection hw with hw'
            exact absurd hw' (by simp)
          | ok u =>
            simp only [hsend] at h
            simp only [Res.ok.injEq, Prod.mk.injEq] at h
            obtain ⟨h1, h2⟩ := h
            subst h1
            subst h2
            exact ⟨Or.inr ⟨rfl, out.cache, rfl, rfl, rfl⟩, fun hw => Option.noConfusion hw⟩

/-- Case analysis of one handler call: either the graph's round maps are
untouched, or the call succeeded and committed, for the snapshot's
producer, a cache/final pair that preserves the round-number pairing; a
returned write error always stems from a failed store write. -/
theorem handler_cases (node : Node) (env : Env) (s : Snapshot) (node' : Node) (e : Option KErr)
    (h : handleSnapshotInput node env s = Res.ok (node', e)) :
    ((node'.graph.cacheRound = node.graph.cacheRound ∧
      node'.graph.finalRound = node.graph.finalRound) ∨
     (e = none ∧ ∃ c f,
        ((∀ c0 f0, alookup node.graph.cacheRound s.nodeId = some c0 →
            alookup node.graph.finalRound s.nodeId = some f0 → c0.number = f0.number + 1) →
          c.number = f.number + 1) ∧
        node'.graph.cacheRound = aset node.graph.cacheRound s.nodeId c ∧
        node'.graph.finalRound = aset node.graph.finalRound s.nodeId f)) ∧
    (e = some KErr.writeError → env.writeSnapshot = Except.error ()) := by
  unfold handleSnapshotInput at h
  cases hrd : env.readSnapshotByTx with
  | error u =>
    simp only [hrd] at h
    simp only [Res.ok.injEq, Prod.mk.injEq] at h
    obtain ⟨h1, h2⟩ := h
    subst h1
    subst h2
    exact ⟨Or.inl ⟨rfl, rfl⟩, fun hw => Option.noConfusion hw⟩
  | ok o =>
    cases o with
    | some o1 =>
      simp only [hrd] at h
      simp only [Res.ok.injEq, Prod.mk.injEq] at h
      obtain ⟨h1, h2⟩ := h
      subst h1
      subst h2
      exact ⟨Or.inl ⟨rfl, rfl⟩, fun hw => Option.noConfusion hw⟩
    | none =>
      simp only [hrd] at h
      cases hval : env.validateTx with
      | error u =>
        simp only [hval] at h
        simp only [Res.ok.injEq, Prod.mk.injEq] at h
        obtain ⟨h1, h2⟩ := h
        subst h1
        subst h2
        exact ⟨Or.inl ⟨rfl, rfl⟩, fun hw => Option.noConfusion hw⟩
      | ok u =>
        simp only [hval] at h
        cases hsg : signSnapshot node env (clearConsensusSignatures node s) with
        | panicked =>
          simp only [hsg] at h
          exact Res.noConfusion h
        | stuck =>
          simp only [hsg] at h
          exact Res.noConfusion h
        | ok t =>
          obtain ⟨s1, cacheP, finalP⟩ := t
          simp only [hsg] at h
          obtain ⟨hs1id0, c0, f0, hl1, hl2, himp⟩ :=
            signSnapshot_ok_props node env (clearConsensusSignatures node s) s1 cacheP finalP hsg
          have hs1id : s1.nodeId = s.nodeId := hs1id0
          have hl1' : alookup node.graph.cacheRound s.nodeId = some c0 := hl1
          have hl2' : alookup node.graph.finalRound s.nodeId = some f0 := hl2
          by_cases hvb : s1.nodeId ≠ node.idForNetwork ∨ s1.signatures.length > 1
          · rw [if_pos hvb] at h
            cases hvs : verifySnapshot node s1 with
            | panicked =>
              simp only [hvs] at h
              exact Res.noConfusion h
            | stuck =>
              simp only [hvs] at h
              exact Res.noConfusion h
            | ok out =>
              simp only [hvs] at h
              obtain ⟨hgr, hsnid, herrk, c1, f1, hvl1, hvl2, hvimp⟩ :=
                verifySnapshot_ok_props node s1 out hvs
              rw [hs1id] at hvl1 hvl2
              obtain ⟨hA, hB⟩ := handlerTail_cases env out node' e h
              refine ⟨?_, ?_⟩
              · rcases hA with ⟨ha1, ha2⟩ | ⟨hen, c, hcn, ha1, ha2⟩
                · left
                  exact ⟨by rw [ha1, hgr], by rw [ha2, hgr]⟩
                · right
                  refine ⟨hen, c, out.final, ?_, ?_, ?_⟩
                  · intro hin
                    rw [hcn]
                    exact hvimp (hin c1 f1 hvl1 hvl2)
                  · rw [ha1, hgr, hsnid, hs1id]
                  · rw [ha2, hgr, hsnid, hs1id]
              · intro hw
                rcases hB hw with hoerr | hwr
                · exact absurd rfl (herrk KErr.writeError hoerr).1
                · exact hwr
          · rw [if_neg hvb] at h
            obtain ⟨hA, hB⟩ :=
              handlerTail_cases env ⟨[], s1, node, cacheP, finalP, none⟩ node' e h
            have hkey : ((⟨[], s1, node, cacheP, finalP, none⟩ : VerifyOut)).snap.nodeId
                = s.nodeId := hs1id
            refine ⟨?_, ?_⟩
            · rcases hA with ⟨ha1, ha2⟩ | ⟨hen, c, hcn, ha1, ha2⟩
              · left
                exact ⟨ha1, ha2⟩
              · right
                refine ⟨hen, c, finalP, ?_, ?_, ?_⟩
                · intro hin
                  rw [hcn]
                  exact himp (hin c0 f0 hl1' hl2')
                · rw [ha1, hkey]
                · rw [ha2, hkey]
            · intro hw
              rcases hB hw with hoerr | hwr
              · exact Option.noConfusion hoerr
              · exact hwr

/-- Claim C9: when `handleSnapshotInput` returns the propagated write
error, the store write indeed failed, and the in-memory round graph is
left uncommitted: the cache- and final-round maps are unchanged. -/
theorem c9_write_failure_uncommitted (node : Node) (env : Env) (s : Snapshot) (node' : Node)
    (h : handleSnapshotInput node env s = Res.ok (node', some KErr.writeError)) :
    env.writeSnapshot = Except.error () ∧
    node'.graph.cacheRound = node.graph.cacheRound ∧
    node'.graph.finalRound = node.graph.finalRound := by
  obtain ⟨hA, hB⟩ := handler_cases node env s node' (some KErr.writeError) h
  refine ⟨hB rfl, ?_, ?_⟩
  · rcases hA with ⟨h1, _⟩ | ⟨hen, _⟩
    · exact h1
    · exact Option.noConfusion hen
  · rcases hA with ⟨_, h2⟩ | ⟨hen, _⟩
    · exact h2
    · exact Option.noConfusion hen

/-- Witness for claim C9 at a concrete finalized snapshot whose store
write fails. -/
theorem c9_witness :
    envWriteFail.writeSnapshot = Except.error () ∧
    nodeAfterWF.graph.cacheRound = baseNode.graph.cacheRound ∧
    nodeAfterWF.graph.finalRound = baseNode.graph.finalRound :=
  c9_write_failure_uncommitted baseNode envWriteFail snapFinalB nodeAfterWF rfl

/-- Looking up the key just written into an association list. -/
theorem alookup_aset_self {β : Type} (l : List (Hash × β)) (k : Hash) (v : β) :
    alookup (aset l k v) k = some v := by
  induction l with
  | nil => simp [aset, alookup, List.find?]
  | cons p t ih =>
    obtain ⟨k0, v0⟩ := p
    rw [aset]
    by_cases hk : k0 = k
    · subst hk
      simp [alookup, List.find?]
    · rw [if_neg hk]
      rw [alookup, List.find?_cons_of_neg _ (by simp [hk])]
      exact ih

/-- Writing one key leaves lookups of other keys unchanged. -/
theorem alookup_aset_ne {β : Type} (l : List (Hash × β)) (k k' : Hash) (v : β)
    (hne : k' ≠ k) : alookup (aset l k v) k' = alookup l k' := by
  induction l with
  | nil =>
    simp [aset, alookup, List.find?, hne.symm]
  | cons p t ih =>
    obtain ⟨k0, v0⟩ := p
    rw [aset]
    by_cases hk : k0 = k
    · subst hk
      rw [if_pos rfl]
      rw [alookup, List.find?_cons_of_neg _ (by simp [hne.symm]),
        alookup, List.find?_cons_of_neg _ (by simp [hne.symm])]
    · rw [if_neg hk]
      by_cases hk0 : k0 = k'
      · subst hk0
        rw [alookup, List.find?_cons_of_pos _ (by simp),
          alookup, List.find?_cons_of_pos _ (by simp)]
      · rw [alookup, List.find?_cons_of_neg _ (by simp [hk0]),
          alookup, List.find?_cons_of_neg _ (by simp [hk0])]
        exact ih

/-- The per-validator round-number invariant follows from checking every
pair of entries of the two maps. -/
theorem invariantGraph_of_pairs (g : RoundGraph)
    (h : ∀ p ∈ g.cacheRound, ∀ q ∈ g.finalRound, p.1 = q.1 → p.2.number = q.2.number + 1) :
    invariantGraph g := by
  intro id c f hc hf
  unfold alookup at hc hf
  cases hfind : g.cacheRound.find? (fun p => p.1 = id) with
  | none =>
    rw [hfind] at hc
    exact Option.noConfusion hc
  | some p =>
    rw [hfind] at hc
    simp only [Option.map_some', Option.some.injEq] at hc
    cases hfind2 : g.finalRound.find? (fun p => p.1 = id) with
    | none =>
      rw [hfind2] at hf
      exact Option.noConfusion hf
    | some q =>
      rw [hfind2] at hf
      simp only [Option.map_some', Option.some.injEq] at hf
      have hpk : p.1 = id := by simpa using List.find?_some hfind
      have hqk : q.1 = id := by simpa using List.find?_some hfind2
      have hnum := h p (List.mem_of_find?_eq_some hfind) q
        (List.mem_of_find?_eq_some hfind2) (hpk.trans hqk.symm)
      rw [← hc, ← hf]
      exact hnum

/-- A successful handler call preserves the round-number invariant. -/
theorem handler_preserves_invariant (node : Node) (env : Env) (s : Snapshot)
    (node' : Node) (e : Option KErr)
    (hinv : invariantGraph node.graph)
    (h : handleSnapshotInput node env s = Res.ok (node', e)) :
    invariantGraph node'.graph := by
  obtain ⟨hA, _⟩ := handler_cases node env s node' e h
  rcases hA with ⟨h1, h2⟩ | ⟨_, c, f, hpair, h1, h2⟩
  · intro id cc ff hcc hff
    rw [h1] at hcc
    rw [h2] at hff
    exact hinv id cc ff hcc hff
  · intro id cc ff hcc hff
    rw [h1] at hcc
    rw [h2] at hff
    by_cases hid : id = s.nodeId
    · subst hid
      rw [alookup_aset_self] at hcc hff
      cases hcc
      cases hff
      exact hpair (fun c0 f0 hc0 hf0 => hinv s.nodeId c0 f0 hc0 hf0)
    · rw [alookup_aset_ne _ _ _ _ hid] at hcc hff
      exact hinv id cc ff hcc hff

/-- A loaded head cache round carries the queried node id. -/
theorem loadHeadRoundForNode_shape (store : LoadStore) (id : Hash) (cache : CacheRound)
    (h : loadHeadRoundForNode store id = Res.ok (Except.ok cache)) : cache.nodeId = id := by
  unfold loadHeadRoundForNode at h
  cases hm : store.roundMeta id with
  | error u =>
    simp only [hm] at h
    simp at h
  | ok meta =>
    obtain ⟨num, start⟩ := meta
    simp only [hm] at h
    cases hsr : store.snapshotsForRound id num with
    | error u =>
      simp only [hsr] at h
      simp at h
    | ok snaps =>
      simp only [hsr] at h
      split at h
      · simp only [Res.ok.injEq, Except.ok.injEq] at h
        rw [← h]
      · exact Res.noConfusion h

/-- A loaded final round carries the queried node id and round number. -/
theorem loadFinalRoundForNode_shape (store : LoadStore) (id : Hash) (n : Nat) (f : FinalRound)
    (h : loadFinalRoundForNode store id n = Res.ok (Except.ok f)) :
    f.nodeId = id ∧ f.number = n := by
  unfold loadFinalRoundForNode at h
  cases hsr : store.snapshotsForRound id n with
  | error u =>
    simp only [hsr] at h
    simp at h
  | ok snaps =>
    cases snaps with
    | nil =>
      simp only [hsr] at h
      exact Res.noConfusion h
    | cons s0 rest =>
      simp only [hsr] at h
      split at h
      · simp only [Res.ok.injEq, Except.ok.injEq] at h
        rw [← h]
        exact ⟨rfl, rfl⟩
      · exact Res.noConfusion h

/-- One load step preserves the round-number invariant. -/
theorem loadRoundStep_invariant (store : LoadStore) (g : RoundGraph) (id : Hash)
    (g' : RoundGraph) (hinv : invariantGraph g)
    (h : loadRoundStep store g id = Res.ok (Except.ok g')) :
    invariantGraph g' := by
  unfold loadRoundStep at h
  cases hhd : loadHeadRoundForNode store id with
  | panicked =>
    simp only [hhd] at h
    exact Res.noConfusion h
  | stuck =>
    simp only [hhd] at h
    exact Res.noConfusion h
  | ok ec =>
    cases ec with
    | error e0 =>
      simp only [hhd] at h
      simp at h
    | ok cache =>
      simp only [hhd] at h
      have hcid : cache.nodeId = id := loadHeadRoundForNode_shape store id cache hhd
      cases hfin : loadFinalRoundForNode store id
          (if cache.number = 0 then cache.number else cache.number - 1) with
      | panicked =>
        simp only [hfin] at h
        exact Res.noConfusion h
      | stuck =>
        simp only [hfin] at h
        exact Res.noConfusion h
      | ok ef =>
        cases ef with
        | error e0 =>
          simp only [hfin] at h
          simp at h
        | ok final =>
          simp only [hfin] at h
          simp only [Res.ok.injEq, Except.ok.injEq] at h
          obtain ⟨hfid, hfnum⟩ := loadFinalRoundForNode_shape store id _ final hfin
          subst h
          by_cases h0 : cache.number = 0
          · rw [if_pos h0]
            intro id' c f hc hf
            by_cases hid : id' = id
            · subst hid
              rw [alookup_aset_self] at hc
              cases hc
              rw [hfid, alookup_aset_self] at hf
              cases hf
              rw [hfnum, if_pos h0, h0]
            · rw [alookup_aset_ne _ _ _ _ hid, hcid, alookup_aset_ne _ _ _ _ hid] at hc
              rw [hfid, alookup_aset_ne _ _ _ _ hid] at hf
              exact hinv id' c f hc hf
          · rw [if_neg h0]
            intro id' c f hc hf
            by_cases hid : id' = id
            · subst hid
              rw [hcid, alookup_aset_self] at hc
              cases hc
              rw [hfid, alookup_aset_self] at hf
              cases hf
              rw [hfnum, if_neg h0]
              omega
            · rw [hcid, alookup_aset_ne _ _ _ _ hid] at hc
              rw [hfid, alookup_aset_ne _ _ _ _ hid] at hf
              exact hinv id' c f hc hf

/-- The load loop preserves the round-number invariant. -/
theorem loadRoundFold_invariant (store : LoadStore) :
    ∀ (ids : List Hash) (g g' : RoundGraph), invariantGraph g →
      loadRoundFold store g ids = Res.ok (Except.ok g') → invariantGraph g' := by
  intro ids
  induction ids with
  | nil =>
    intro g g' hinv h
    rw [loadRoundFold] at h
    simp only [Res.ok.injEq, Except.ok.injEq] at h
    rw [← h]
    exact hinv
  | cons id rest ih =>
    intro g g' hinv h
    rw [loadRoundFold] at h
    cases hstep : loadRoundStep store g id with
    | panicked =>
      rw [hstep] at h
      exact Res.noConfusion h
    | stuck =>
      rw [hstep] at h
      exact Res.noConfusion h
    | ok ec =>
      cases ec with
      | error e0 =>
        rw [hstep] at h
        simp at h
      | ok g1 =>
        rw [hstep] at h
        exact ih g1 g' (loadRoundStep_invariant store g id g1 hinv hstep) h

/-- Rebuilding the final cache does not touch the round maps, so the
invariant transfers. -/
theorem updateFinalCache_invariant (g : RoundGraph) (hinv : invariantGraph g) :
    invariantGraph g.updateFinalCache := by
  intro id c f hc hf
  exact hinv id c f hc hf

/-- The empty graph satisfies the invariant vacuously. -/
theorem emptyGraph_invariant : invariantGraph ⟨[], [], [], []⟩ := by
  intro id c f hc _
  simp [alookup] at hc

/-- `LoadRoundGraph` establishes the round-number invariant. -/
theorem LoadRoundGraph_invariant (store : LoadStore) (g : RoundGraph)
    (h : LoadRoundGraph store = Res.ok (Except.ok g)) : invariantGraph g := by
  unfold LoadRoundGraph at h
  cases hnl : store.nodesList with
  | error u =>
    simp only [hnl] at h
    simp at h
  | ok ids =>
    simp only [hnl] at h
    cases hfold : loadRoundFold store ⟨[], [], [], []⟩ ids with
    | panicked =>
      simp only [hfold] at h
      exact Res.noConfusion h
    | stuck =>
      simp only [hfold] at h
      exact Res.noConfusion h
    | ok ec =>
      cases ec with
      | error e0 =>
        simp only [hfold] at h
        simp at h
      | ok g0 =>
        simp only [hfold] at h
        simp only [Res.ok.injEq, Except.ok.injEq] at h
        rw [← h]
        exact updateFinalCache_invariant g0
          (loadRoundFold_invariant store ids ⟨[], [], [], []⟩ g0 emptyGraph_invariant hfold)

/-- Claim C2: `LoadRoundGraph` establishes, and every successful
`handleSnapshotInput` call preserves, the per-validator invariant
`cache_round[N].number = final_round[N].number + 1` (with the bootstrap
case producing cache round 1 over final round 0). -/
theorem c2_round_number_invariant (lstore : LoadStore) (g : RoundGraph)
    (node : Node) (env : Env) (s : Snapshot) (node' : Node) (e : Option KErr)
    (hload : LoadRoundGraph lstore = Res.ok (Except.ok g))
    (hinv : invariantGraph node.graph)
    (hrun : handleSnapshotInput node env s = Res.ok (node', e)) :
    invariantGraph g ∧ invariantGraph node'.graph :=
  ⟨LoadRoundGraph_invariant lstore g hload,
   handler_preserves_invariant node env s node' e hinv hrun⟩

/-- Witness for claim C2: after loading the concrete store and handling a
finalized snapshot of validator B, the committed rounds of validator B
satisfy the invariant. -/
theorem c2_witness : cacheAfterOK.number = finalAfterOK.number + 1 := by
  have hinv : invariantGraph baseNode.graph :=
    invariantGraph_of_pairs baseNode.graph (by decide)
  have H := c2_round_number_invariant loadStoreA gLoadA baseNode baseEnv snapFinalB
    nodeAfterOK none rfl hinv rfl
  exact H.2 idB cacheAfterOK finalAfterOK rfl rfl

/-- A loaded head cache round carries the stored head round number. -/
theorem loadHeadRoundForNode_number (store : LoadStore) (id : Hash) (cache : CacheRound)
    (num st : Nat) (hmeta : store.roundMeta id = Except.ok (num, st))
    (h : loadHeadRoundForNode store id = Res.ok (Except.ok cache)) : cache.number = num := by
  unfold loadHeadRoundForNode at h
  simp only [hmeta] at h
  cases hsr : store.snapshotsForRound id num with
  | error u =>
    simp only [hsr] at h
    simp at h
  | ok snaps =>
    simp only [hsr] at h
    split at h
    · simp only [Res.ok.injEq, Except.ok.injEq] at h
      rw [← h]
    · exact Res.noConfusion h

/-- One load step leaves other validators' entries unchanged. -/
theorem loadRoundStep_other (store : LoadStore) (g : RoundGraph) (id : Hash)
    (g' : RoundGraph) (id' : Hash) (hne : id' ≠ id)
    (h : loadRoundStep store g id = Res.ok (Except.ok g')) :
    alookup g'.cacheRound id' = alookup g.cacheRound id' ∧
    alookup g'.finalRound id' = alookup g.finalRound id' := by
  unfold loadRoundStep at h
  cases hhd : loadHeadRoundForNode store id with
  | panicked =>
    simp only [hhd] at h
    exact Res.noConfusion h
  | stuck =>
    simp only [hhd] at h
    exact Res.noConfusion h
  | ok ec =>
    cases ec with
    | error e0 =>
      simp only [hhd] at h
      simp at h
    | ok cache =>
      simp only [hhd] at h
      have hcid : cache.nodeId = id := loadHeadRoundForNode_shape store id cache hhd
      cases hfin : loadFinalRoundForNode store id
          (if cache.number = 0 then cache.number else cache.number - 1) with
      | panicked =>
        simp only [hfin] at h
        exact Res.noConfusion h
      | stuck =>
        simp only [hfin] at h
        exact Res.noConfusion h
      | ok ef =>
        cases ef with
        | error e0 =>
          simp only [hfin] at h
          simp at h
        | ok final =>
          simp only [hfin] at h
          simp only [Res.ok.injEq, Except.ok.injEq] at h
          obtain ⟨hfid, _⟩ := loadFinalRoundForNode_shape store id _ final hfin
          subst h
          by_cases h0 : cache.number = 0
          · rw [if_pos h0]
            constructor
            · rw [alookup_aset_ne _ _ _ _ hne, hcid, alookup_aset_ne _ _ _ _ hne]
            · rw [hfid, alookup_aset_ne _ _ _ _ hne]
          · rw [if_neg h0]
            constructor
            · rw [hcid, alookup_aset_ne _ _ _ _ hne]
            · rw [hfid, alookup_aset_ne _ _ _ _ hne]

/-- One load step for a validator whose stored head number is zero:
the synthetic cache at round 1 is installed and the final round loaded
from round 0. -/
theorem loadRoundStep_bootstrap (store : LoadStore) (g : RoundGraph) (id : Hash)
    (g' : RoundGraph) (st : Nat)
    (hmeta : store.roundMeta id = Except.ok (0, st))
    (h : loadRoundStep store g id = Res.ok (Except.ok g')) :
    alookup g'.cacheRound id = some ⟨id, 1, 0, 0, []⟩ ∧
    ∃ f, loadFinalRoundForNode store id 0 = Res.ok (Except.ok f) ∧
      alookup g'.finalRound id = some f := by
  unfold loadRoundStep at h
  cases hhd : loadHeadRoundForNode store id with
  | panicked =>
    simp only [hhd] at h
    exact Res.noConfusion h
  | stuck =>
    simp only [hhd] at h
    exact Res.noConfusion h
  | ok ec =>
    cases ec with
    | error e0 =>
      simp only [hhd] at h
      simp at h
    | ok cache =>
      simp only [hhd] at h
      have hcn : cache.number = 0 := loadHeadRoundForNode_number store id cache 0 st hmeta hhd
      rw [if_pos hcn] at h
      cases hfin : loadFinalRoundForNode store id cache.number with
      | panicked =>
        simp only [hfin] at h
        exact Res.noConfusion h
      | stuck =>
        simp only [hfin] at h
        exact Res.noConfusion h
      | ok ef =>
        cases ef with
        | error e0 =>
          simp only [hfin] at h
          simp at h
        | ok final =>
          simp only [hfin] at h
          simp only [Res.ok.injEq, Except.ok.injEq] at h
          obtain ⟨hfid, _⟩ := loadFinalRoundForNode_shape store id _ final hfin
          subst h
          have hfin0 : loadFinalRoundForNode store id 0 = Res.ok (Except.ok final) := by
            rw [← hfin, hcn]
          rw [if_pos hcn]
          refine ⟨?_, final, hfin0, ?_⟩
          · rw [alookup_aset_self]
          · rw [hfid, alookup_aset_self]

/-- The load loop leaves the entries of a validator that is not among
the remaining ids unchanged. -/
theorem loadRoundFold_preserve (store : LoadStore) :
    ∀ (ids : List Hash) (g g' : RoundGraph) (id : Hash), id ∉ ids →
      loadRoundFold store g ids = Res.ok (Except.ok g') →
      alookup g'.cacheRound id = alookup g.cacheRound id ∧
      alookup g'.finalRound id = alookup g.finalRound id := by
  intro ids
  induction ids with
  | nil =>
    intro g g' id _ h
    rw [loadRoundFold] at h
    simp only [Res.ok.injEq, Except.ok.injEq] at h
    rw [← h]
    exact ⟨rfl, rfl⟩
  | cons i rest ih =>
    intro g g' id hmem h
    rw [loadRoundFold] at h
    cases hstep : loadRoundStep store g i with
    | panicked =>
      rw [hstep] at h
      exact Res.noConfusion h
    | stuck =>
      rw [hstep] at h
      exact Res.noConfusion h
    | ok ec =>
      cases ec with
      | error e0 =>
        rw [hstep] at h
        simp at h
      | ok g1 =>
        rw [hstep] at h
        have hne : id ≠ i := fun he => hmem (he ▸ List.mem_cons_self i rest)
        obtain ⟨h1, h2⟩ := loadRoundStep_other store g i g1 id hne hstep
        have hrest : id ∉ rest := fun hr => hmem (List.mem_cons_of_mem i hr)
        obtain ⟨h3, h4⟩ := ih g1 g' id hrest h
        exact ⟨h3.trans h1, h4.trans h2⟩

/-- Through the whole load loop, a validator with stored head number zero
ends with the synthetic round-1 cache and the final round loaded from its
round-0 snapshots. -/
theorem loadRoundFold_bootstrap (store : LoadStore) :
    ∀ (ids : List Hash) (g g' : RoundGraph) (id : Hash) (st : Nat), ids.Nodup →
      id ∈ ids → store.roundMeta id = Except.ok (0, st) →
      loadRoundFold store g ids = Res.ok (Except.ok g') →
      alookup g'.cacheRound id = some ⟨id, 1, 0, 0, []⟩ ∧
      ∃ f, loadFinalRoundForNode store id 0 = Res.ok (Except.ok f) ∧
        alookup g'.finalRound id = some f := by
  intro ids
  induction ids with
  | nil =>
    intro g g' id st _ hmem _ _
    exact absurd hmem (List.not_mem_nil id)
  | cons i rest ih =>
    intro g g' id st hnd hmem hmeta h
    rw [loadRoundFold] at h
    cases hstep : loadRoundStep store g i with
    | panicked =>
      rw [hstep] at h
      exact Res.noConfusion h
    | stuck =>
      rw [hstep] at h
      exact Res.noConfusion h
    | ok ec =>
      cases ec with
      | error e0 =>
        rw [hstep] at h
        simp at h
      | ok g1 =>
        rw [hstep] at h
        rcases List.mem_cons.mp hmem with he | hr
        · subst he
          have hid : id ∉ rest := (List.nodup_cons.mp hnd).1
          obtain ⟨hc, f, hf, hfr⟩ := loadRoundStep_bootstrap store g id g1 st hmeta hstep
          obtain ⟨h1, h2⟩ := loadRoundFold_preserve store rest g1 g' id hid h
          exact ⟨h1.trans hc, f, hf, h2.trans hfr⟩
        · exact ih g1 g' id st (List.nodup_cons.mp hnd).2 hr hmeta h

/-- Rebuilding the final cache does not touch the two round maps. -/
theorem updateFinalCache_rounds (g : RoundGraph) :
    g.updateFinalCache.cacheRound = g.cacheRound ∧
    g.updateFinalCache.finalRound = g.finalRound :=
  ⟨rfl, rfl⟩

/-- C8 (amended): for every validator whose stored head round number is 0,
`LoadRoundGraph` inserts a synthetic empty cache round at number 1, and
sets the node's final round to the round produced by
`loadFinalRoundForNode` from the store's round-0 snapshots — carrying the
validator's id and number 0, with start, end and hash taken from the
stored snapshots rather than fixed at zero. -/
theorem c8_bootstrap_round (store : LoadStore) (ids : List Hash) (id : Hash) (st : Nat)
    (g : RoundGraph)
    (hids : store.nodesList = Except.ok ids) (hnd : ids.Nodup) (hmem : id ∈ ids)
    (hmeta : store.roundMeta id = Except.ok (0, st))
    (h : LoadRoundGraph store = Res.ok (Except.ok g)) :
    alookup g.cacheRound id = some ⟨id, 1, 0, 0, []⟩ ∧
    ∃ f, loadFinalRoundForNode store id 0 = Res.ok (Except.ok f) ∧
      alookup g.finalRound id = some f ∧ f.nodeId = id ∧ f.number = 0 := by
  unfold LoadRoundGraph at h
  simp only [hids] at h
  cases hfold : loadRoundFold store ⟨[], [], [], []⟩ ids with
  | panicked =>
    simp only [hfold] at h
    exact Res.noConfusion h
  | stuck =>
    simp only [hfold] at h
    exact Res.noConfusion h
  | ok ec =>
    cases ec with
    | error e0 =>
      simp only [hfold] at h
      simp at h
    | ok g0 =>
      simp only [hfold] at h
      simp only [Res.ok.injEq, Except.ok.injEq] at h
      subst h
      obtain ⟨hc, f, hf, hfr⟩ :=
        loadRoundFold_bootstrap store ids ⟨[], [], [], []⟩ g0 id st hnd hmem hmeta hfold
      obtain ⟨hfid, hfnum⟩ := loadFinalRoundForNode_shape store id 0 f hf
      exact ⟨hc, f, hf, hfr, hfid, hfnum⟩

/-- C8 witness: the amended bootstrap property evaluated on the concrete
boot store, whose single validator has head round 0. -/
theorem c8_witness :
    alookup gBoot.cacheRound idA = some ⟨idA, 1, 0, 0, []⟩ ∧
    ∃ f, loadFinalRoundForNode loadStoreBoot idA 0 = Res.ok (Except.ok f) ∧
      alookup gBoot.finalRound idA = some f ∧ f.nodeId = idA ∧ f.number = 0 :=
  c8_bootstrap_round loadStoreBoot [idA] idA 0 gBoot rfl (by decide) (by decide) rfl (by rfl)

/-- C8 counterexample to the original claim: on a store whose round-0
snapshot has timestamp 5, the bootstrap final round has start 5, not
start = end = 0. -/
theorem c8_counterexample :
    loadStoreBoot.roundMeta idA = Except.ok (0, 0) ∧
    LoadRoundGraph loadStoreBoot = Res.ok (Except.ok gBoot) ∧
    (alookup gBoot.finalRound idA).map FinalRound.start = some 5 ∧
    (alookup gBoot.finalRound idA).map FinalRound.start ≠ some 0 :=
  ⟨rfl, rfl, rfl, by decide⟩
